import Mathlib

set_option maxHeartbeats 1000000

/-!
Verification of the face-track identity-continuity engine of the
Face_reco application (App.tsx): the IoU similarity scorer
`calculateIoU`, the greedy track reconciler inside `captureAndAnalyze`,
the attendance-debounce decision, and the start/stop session handlers.

Numbers: JS `number` values that hold exact decimal/integer data are
modelled as rationals (`ℚ`) for geometry and integers (`ℤ`) for
millisecond timestamps.  JS `Map` (insertion-ordered) is modelled as an
association list with insertion-ordered keys; `Map.set` updates in place
when the key exists and appends otherwise.
-/

namespace FaceReco

/-- Axis-aligned rectangle, mirroring `BoundingBox` in types.ts. -/
structure BoundingBox where
  x : ℚ
  y : ℚ
  width : ℚ
  height : ℚ
deriving DecidableEq

/-- Emotion enum from types.ts. -/
inductive Emotion
  | Happy | Sad | Angry | Surprised | Neutral | Disgusted | Fearful
deriving DecidableEq

/-- StudentInfo from types.ts. -/
structure StudentInfo where
  name : String
  rollNumber : String
deriving DecidableEq

/-- FaceResult from types.ts.  `persistentId` is absent (`none`) until the
reconciler stamps it. -/
structure FaceResult where
  personId : String
  emotion : Emotion
  confidence : ℚ
  boundingBox : BoundingBox
  persistentId : Option ℕ := none
  studentInfo : Option StudentInfo := none
deriving DecidableEq

/-- AttendanceRecord from types.ts. -/
structure AttendanceRecord where
  persistentId : ℕ
  timestamp : ℤ
  emotion : Emotion
deriving DecidableEq

/-- The per-track record stored in `trackedFacesRef`
(`{ boundingBox, lastSeen, geminiId }`). -/
structure TrackData where
  boundingBox : BoundingBox
  lastSeen : ℤ
  geminiId : String
deriving DecidableEq

/-- The Track Table: a JS `Map<number, ...>` modelled as an
insertion-ordered association list with (invariantly) distinct keys. -/
abbrev TrackTable := List (ℕ × TrackData)

/-- JS `Map.has`. -/
def mapHas (m : List (ℕ × α)) (k : ℕ) : Bool :=
  m.any (fun p => p.1 == k)

/-- JS `Map.get` (`none` = `undefined`). -/
def mapGet (m : List (ℕ × α)) (k : ℕ) : Option α :=
  (m.find? (fun p => p.1 == k)).map Prod.snd

/-- JS `Map.set`: update in place when the key is present (keeping its
position), append otherwise. -/
def mapSet (m : List (ℕ × α)) (k : ℕ) (v : α) : List (ℕ × α) :=
  if mapHas m k then m.map (fun p => if p.1 = k then (k, v) else p)
  else m ++ [(k, v)]

/-- `calculateIoU` from App.tsx, verbatim structure.  The final JS line
`return isNaN(iou) ? 0 : iou;` needs no separate branch here: the only
way JS produces `NaN` is `0 / 0`, and `ℚ` division already yields `0`
there; a nonzero numerator over a zero denominator (JS `Infinity`) is
impossible because `unionArea = 0` would force the guarded areas to make
`intersectionArea = unionArea = 0`. -/
def calculateIoU (boxA boxB : BoundingBox) : ℚ :=
  let xA := max boxA.x boxB.x
  let yA := max boxA.y boxB.y
  let xB := min (boxA.x + boxA.width) (boxB.x + boxB.width)
  let yB := min (boxA.y + boxA.height) (boxB.y + boxB.height)
  let intersectionArea := max 0 (xB - xA) * max 0 (yB - yA)
  let boxAArea := boxA.width * boxA.height
  let boxBArea := boxB.width * boxB.height
  if boxAArea ≤ 0 ∨ boxBArea ≤ 0 then 0
  else
    let unionArea := boxAArea + boxBArea - intersectionArea
    let iou := intersectionArea / unionArea
    iou

/-- `IOU_THRESHOLD` constant from `captureAndAnalyze`. -/
def IOU_THRESHOLD : ℚ := 0.4

/-- `MAX_INACTIVITY_MS` constant from `captureAndAnalyze`. -/
def MAX_INACTIVITY_MS : ℤ := 20000

/-- `ATTENDANCE_LOG_INTERVAL_MS` constant from App.tsx. -/
def ATTENDANCE_LOG_INTERVAL_MS : ℤ := 5 * 60 * 1000

/-- Entry of `matchedPairs` in `captureAndAnalyze`. -/
structure MatchedPair where
  trackId : ℕ
  detection : FaceResult
  detectionIndex : ℕ
deriving DecidableEq

/-- The inner `newDetections.forEach` of the matching loop: starting from
`bestIoU = 0`, `bestMatchIndex = -1` (modelled as `none`), scan the
detections in index order, skipping consumed indices, and keep the
strictly best score that also strictly exceeds `IOU_THRESHOLD`. -/
def findBestMatch (trackBox : BoundingBox) (newDetections : List FaceResult)
    (usedDetectionIndices : List ℕ) : ℚ × Option (ℕ × FaceResult) :=
  newDetections.enum.foldl
    (fun best p =>
      if p.1 ∈ usedDetectionIndices then best
      else
        let iou := calculateIoU trackBox p.2.boundingBox
        if iou > best.1 ∧ iou > IOU_THRESHOLD then (iou, some p) else best)
    (0, none)

/-- The outer matching loop of `captureAndAnalyze` (lines 197-213): for
each track in Track Table insertion order, find its best unconsumed
detection; on success record the pair and consume the index. -/
def matchTracks (trackedFaces : TrackTable) (newDetections : List FaceResult) :
    List MatchedPair × List ℕ :=
  trackedFaces.foldl
    (fun acc tr =>
      match (findBestMatch tr.2.boundingBox newDetections acc.2).2 with
      | some (i, d) => (acc.1 ++ [⟨tr.1, d, i⟩], acc.2 ++ [i])
      | none => acc)
    ([], [])

/-- Reconciler state: the Track Table plus `nextFaceIdRef`. -/
structure SessionState where
  trackedFaces : TrackTable
  nextFaceId : ℕ
deriving DecidableEq

/-- State right after `handleStartCamera` resets tracking
(`trackedFacesRef.current.clear(); nextFaceIdRef.current = 1`). -/
def initialSessionState : SessionState := ⟨[], 1⟩

/-- Lines 217-222: seed `newTrackedFaces` from the matched pairs,
refreshing region, `lastSeen` and `geminiId`. -/
def applyMatches (matchedPairs : List MatchedPair) (currentTime : ℤ) : TrackTable :=
  matchedPairs.foldl
    (fun t p => mapSet t p.trackId ⟨p.detection.boundingBox, currentTime, p.detection.personId⟩)
    []

/-- Lines 224-232: `newDetections.forEach` creating a fresh track (with a
post-incremented id) for every unconsumed detection index.  Also returns
the index-to-stamped-id assignments made by this loop. -/
def createNewTracks (usedDetectionIndices : List ℕ) (currentTime : ℤ) :
    List FaceResult → ℕ → ℕ → TrackTable → List (ℕ × ℕ) → ℕ × TrackTable × List (ℕ × ℕ)
  | [], _, nextId, t, stamps => (nextId, t, stamps)
  | d :: rest, i, nextId, t, stamps =>
    if i ∈ usedDetectionIndices then
      createNewTracks usedDetectionIndices currentTime rest (i + 1) nextId t stamps
    else
      createNewTracks usedDetectionIndices currentTime rest (i + 1) (nextId + 1)
        (mapSet t nextId ⟨d.boundingBox, currentTime, d.personId⟩) (stamps ++ [(i, nextId)])

/-- Lines 234-238: carry forward every old track that is within the
inactivity window and not already present in the new table. -/
def carryForward (oldTracks : TrackTable) (currentTime : ℤ) (t : TrackTable) : TrackTable :=
  oldTracks.foldl
    (fun acc tr =>
      if currentTime - tr.2.lastSeen ≤ MAX_INACTIVITY_MS ∧ ¬ mapHas acc tr.1 then
        mapSet acc tr.1 tr.2
      else acc)
    t

/-- Output of one reconcile cycle: new state, the detections with
`persistentId` stamped, and (for stating properties) the matched pairs,
the consumed indices, and the (index, freshly created id) assignments of
the new-track loop. -/
structure ReconcileResult where
  state : SessionState
  faces : List FaceResult
  matchedPairs : List MatchedPair
  usedDetectionIndices : List ℕ
  newTrackStamps : List (ℕ × ℕ)
deriving DecidableEq

/-- The face-tracking core of `captureAndAnalyze` (lines 188-240): match,
refresh matched tracks, create tracks for unconsumed detections, carry
forward fresh-enough unmatched tracks, and stamp each detection's
`persistentId` (matched detections get their track's id in the
matched-pairs loop at line 221, unconsumed ones get the freshly created
id at line 230; the two loops write disjoint index sets). -/
def reconcile (s : SessionState) (newDetections : List FaceResult) (currentTime : ℤ) :
    ReconcileResult :=
  let mp := matchTracks s.trackedFaces newDetections
  let matchedStamps := mp.1.map (fun p => (p.detectionIndex, p.trackId))
  let t1 := applyMatches mp.1 currentTime
  let ctr := createNewTracks mp.2 currentTime newDetections 0 s.nextFaceId t1 []
  let finalTable := carryForward s.trackedFaces currentTime ctr.2.1
  let stamps := matchedStamps ++ ctr.2.2
  let faces := newDetections.enum.map
    (fun p => match mapGet stamps p.1 with
      | some id => { p.2 with persistentId := some id }
      | none => p.2)
  ⟨⟨finalTable, ctr.1⟩, faces, mp.1, mp.2, ctr.2.2⟩

/-- A whole session: fold `reconcile` over a list of
(detections, timestamp) cycles. -/
def runSession (s : SessionState) : List (List FaceResult × ℤ) → SessionState
  | [] => s
  | c :: rest => runSession (reconcile s c.1 c.2).state rest

/-- All track identifiers created (in order) along a session run. -/
def createdIdsTrace (s : SessionState) : List (List FaceResult × ℤ) → List ℕ
  | [] => []
  | c :: rest =>
    (reconcile s c.1 c.2).newTrackStamps.map Prod.snd ++
      createdIdsTrace (reconcile s c.1 c.2).state rest

/-- The stamped detection lists produced cycle by cycle along a session
run. -/
def facesTrace (s : SessionState) : List (List FaceResult × ℤ) → List (List FaceResult)
  | [] => []
  | c :: rest => (reconcile s c.1 c.2).faces :: facesTrace (reconcile s c.1 c.2).state rest

/-- State of the attendance bookkeeping
(`lastAttendanceLogRef` and the `attendance` array). -/
structure AttendanceState where
  lastAttendanceLog : List (ℕ × ℤ)
  attendance : List AttendanceRecord
deriving DecidableEq

/-- Body of the attendance `forEach` (lines 243-261) for one face.  JS
reads `if (face.persistentId)`, which is falsy for both `undefined` and
`0`, and `if (!lastLog || ...)`, where `!lastLog` is truthy for both a
missing entry and a recorded timestamp `0`. -/
def logAttendanceForFace (students : List (ℕ × StudentInfo)) (currentTime : ℤ)
    (st : AttendanceState) (face : FaceResult) : AttendanceState :=
  match face.persistentId with
  | none => st
  | some pid =>
    if pid = 0 then st
    else
      match mapGet students pid with
      | none => st
      | some _ =>
        match mapGet st.lastAttendanceLog pid with
        | none =>
          ⟨mapSet st.lastAttendanceLog pid currentTime,
           st.attendance ++ [⟨pid, currentTime, face.emotion⟩]⟩
        | some lastLog =>
          if lastLog = 0 ∨ currentTime - lastLog > ATTENDANCE_LOG_INTERVAL_MS then
            ⟨mapSet st.lastAttendanceLog pid currentTime,
             st.attendance ++ [⟨pid, currentTime, face.emotion⟩]⟩
          else st

/-- The full attendance loop over the (already stamped) detections. -/
def attendanceStep (students : List (ℕ × StudentInfo)) (faces : List FaceResult)
    (currentTime : ℤ) (st : AttendanceState) : AttendanceState :=
  faces.foldl (logAttendanceForFace students currentTime) st

/-- Outcome of the external `detectFacesAndHands` call: success, the
distinguished `RATE_LIMIT` failure, or any other failure. -/
inductive DetectionOutcome
  | ok (faces : List FaceResult)
  | rateLimitError
  | otherError
deriving DecidableEq

/-- The application state touched by the handlers and by one
`captureAndAnalyze` cycle. -/
structure AppState where
  stream : Bool
  detectionFaces : List FaceResult
  trackedFaces : TrackTable
  nextFaceId : ℕ
  isPausedForRateLimit : Bool
  students : List (ℕ × StudentInfo)
  lastAttendanceLog : List (ℕ × ℤ)
  attendance : List AttendanceRecord
  hasError : Bool
  isApiError : Bool
deriving DecidableEq

/-- `handleStopCamera` (lines 137-146): when a stream is active, stop it,
clear the detection result, clear the Track Table and cancel the
rate-limit pause.  It does not touch `nextFaceIdRef`. -/
def handleStopCamera (s : AppState) : AppState :=
  if s.stream then
    { s with stream := false, detectionFaces := [], trackedFaces := [],
             isPausedForRateLimit := false }
  else s

/-- The synchronous reset prefix of `handleStartCamera` (lines 73-77):
clear error and pause flags, clear the detection result, clear the Track
Table and reset `nextFaceIdRef` to 1. -/
def handleStartCameraReset (s : AppState) : AppState :=
  { s with hasError := false, isPausedForRateLimit := false, detectionFaces := [],
           trackedFaces := [], nextFaceId := 1 }

/-- One `captureAndAnalyze` cycle after the detection call resolves
(lines 185-296): on success run tracking plus attendance and clear a
previous API error; on a `RATE_LIMIT` failure set the error and enter the
rate-limit pause; on any other failure only set the error.  Both failure
branches clear the displayed detections and leave the Track Table and
`nextFaceIdRef` untouched. -/
def captureAndAnalyze (s : AppState) (outcome : DetectionOutcome) (currentTime : ℤ) :
    AppState :=
  match outcome with
  | .ok newDetections =>
    let r := reconcile ⟨s.trackedFaces, s.nextFaceId⟩ newDetections currentTime
    let att := attendanceStep s.students r.faces currentTime
      ⟨s.lastAttendanceLog, s.attendance⟩
    { s with trackedFaces := r.state.trackedFaces, nextFaceId := r.state.nextFaceId,
             detectionFaces := r.faces,
             lastAttendanceLog := att.lastAttendanceLog, attendance := att.attendance,
             hasError := if s.isApiError then false else s.hasError,
             isApiError := false }
  | .rateLimitError =>
    { s with hasError := true, isApiError := true, isPausedForRateLimit := true,
             detectionFaces := [] }
  | .otherError =>
    { s with hasError := true, isApiError := true, detectionFaces := [] }

/-- Recursive rendering of the inner `forEach` fold of `findBestMatch`,
used for induction (equal to the fold by `findBestMatch_eq_bestScan`). -/
def bestScan (trackBox : BoundingBox) (usedDetectionIndices : List ℕ)
    (best : ℚ × Option (ℕ × FaceResult)) :
    List (ℕ × FaceResult) → ℚ × Option (ℕ × FaceResult)
  | [] => best
  | p :: ps =>
    bestScan trackBox usedDetectionIndices
      (if p.1 ∈ usedDetectionIndices then best
       else if calculateIoU trackBox p.2.boundingBox > best.1 ∧
           calculateIoU trackBox p.2.boundingBox > IOU_THRESHOLD then
         (calculateIoU trackBox p.2.boundingBox, some p)
       else best) ps

/-- Invariant of the running best candidate of the inner scan: when a
candidate is held, it is unconsumed, its score is the held best score,
and that score strictly exceeds the threshold. -/
def AccOk (trackBox : BoundingBox) (used : List ℕ)
    (acc : ℚ × Option (ℕ × FaceResult)) : Prop :=
  ∀ i d, acc.2 = some (i, d) →
    i ∉ used ∧ acc.1 = calculateIoU trackBox d.boundingBox ∧ IOU_THRESHOLD < acc.1

/-- Detection with the given region and external label, as produced by
the external detector (no `persistentId` yet). -/
def sampleFace (bb : BoundingBox) (label : String) : FaceResult :=
  { personId := label, emotion := .Neutral, confidence := 1, boundingBox := bb }

/-- Region used as a track's last known region in concrete instances. -/
def witnessTrackBox : BoundingBox := ⟨0, 0, 10, 10⟩

/-- Detection whose overlap score with `witnessTrackBox` is exactly 0.4
(intersection 400/7, union 1000/7). -/
def exactThresholdFace : FaceResult := sampleFace ⟨30 / 7, 0, 10, 10⟩ "exact"

/-- Detection whose overlap score with `witnessTrackBox` is 3/7 > 0.4. -/
def aboveThresholdFace : FaceResult := sampleFace ⟨4, 0, 10, 10⟩ "above"

/-- Recursive rendering of the outer matching fold of `matchTracks`,
used for induction (equal to the fold by `matchTracks_eq_matchScan`). -/
def matchScan (newDetections : List FaceResult) (acc : List MatchedPair × List ℕ) :
    TrackTable → List MatchedPair × List ℕ
  | [] => acc
  | tr :: rest =>
    matchScan newDetections
      (match (findBestMatch tr.2.boundingBox newDetections acc.2).2 with
       | some (i, d) => (acc.1 ++ [⟨tr.1, d, i⟩], acc.2 ++ [i])
       | none => acc) rest

/-- Track record used in concrete instances: region, lastSeen, label. -/
def sampleTrack (bb : BoundingBox) (seen : ℤ) : TrackData := ⟨bb, seen, "g"⟩

/-- First cycle of the C2 scenario: one face at the far left. -/
def cycleOneFace : FaceResult := sampleFace ⟨0, 0, 10, 10⟩ "p1"

/-- Second cycle of the C2 scenario: one face to the right, overlapping
the first track's region with score 1/9 (no match). -/
def cycleTwoFace : FaceResult := sampleFace ⟨8, 0, 10, 10⟩ "p2"

/-- Third cycle of the C2 scenario: a face halfway between the two
tracks' regions, scoring 3/7 > 0.4 against both. -/
def contestedFace : FaceResult := sampleFace ⟨4, 0, 10, 10⟩ "p3"

/-- Application state with an active stream, a nonempty Track Table and
an advanced identifier counter, used to exercise the stop handler. -/
def exampleStopState : AppState :=
  { stream := true, detectionFaces := [],
    trackedFaces := [(3, sampleTrack ⟨0, 0, 10, 10⟩ 100)], nextFaceId := 5,
    isPausedForRateLimit := true, students := [], lastAttendanceLog := [],
    attendance := [], hasError := false, isApiError := false }

/-- Invariant of every reachable reconciler state: the Track Table keys
are distinct (a JS `Map` invariant) and every key was assigned by the
counter, i.e. lies in `[1, nextFaceId)`. -/
def GoodState (s : SessionState) : Prop :=
  (s.trackedFaces.map Prod.fst).Nodup ∧
  (∀ k ∈ s.trackedFaces.map Prod.fst, 1 ≤ k ∧ k < s.nextFaceId) ∧
  1 ≤ s.nextFaceId

/-! ### Association-list (JS `Map`) lemmas -/

theorem mapHas_eq_true_iff (m : List (ℕ × α)) (k : ℕ) :
    mapHas m k = true ↔ k ∈ m.map Prod.fst := by
  simp [mapHas, List.any_eq_true, List.mem_map]

theorem find_eq_none_of_not_mem (m : List (ℕ × α)) (k : ℕ)
    (h : k ∉ m.map Prod.fst) : List.find? (fun p => p.1 == k) m = none := by
  rw [List.find?_eq_none]
  intro p hp
  simp only [beq_iff_eq]
  exact fun e => h (List.mem_map.mpr ⟨p, hp, e⟩)

theorem mapGet_eq_none_iff (m : List (ℕ × α)) (k : ℕ) :
    mapGet m k = none ↔ k ∉ m.map Prod.fst := by
  unfold mapGet
  rw [Option.map_eq_none', List.find?_eq_none]
  constructor
  · intro h hk
    rcases List.mem_map.mp hk with ⟨p, hp, e⟩
    exact h p hp (by simpa [beq_iff_eq] using e)
  · intro h p hp
    simp only [beq_iff_eq]
    exact fun e => h (List.mem_map.mpr ⟨p, hp, e⟩)

theorem mapGet_append_of_not_mem (m m' : List (ℕ × α)) (k : ℕ)
    (h : k ∉ m.map Prod.fst) : mapGet (m ++ m') k = mapGet m' k := by
  unfold mapGet
  rw [List.find?_append, find_eq_none_of_not_mem m k h, Option.none_or]

theorem mapGet_append_left (m m' : List (ℕ × α)) (k : ℕ)
    (h : k ∈ m.map Prod.fst) : mapGet (m ++ m') k = mapGet m k := by
  unfold mapGet
  rw [List.find?_append]
  rcases hf : List.find? (fun p => p.1 == k) m with _ | p
  · exact absurd ((mapGet_eq_none_iff m k).mp (by simp [mapGet, hf])) (by simpa using h)
  · rw [hf, Option.or_some]

theorem mapSet_of_not_mem (m : List (ℕ × α)) (k : ℕ) (v : α)
    (h : k ∉ m.map Prod.fst) : mapSet m k v = m ++ [(k, v)] := by
  rw [mapSet, if_neg]
  simp [mapHas_eq_true_iff, h]

theorem keys_mapSet_of_not_mem (m : List (ℕ × α)) (k : ℕ) (v : α)
    (h : k ∉ m.map Prod.fst) :
    (mapSet m k v).map Prod.fst = m.map Prod.fst ++ [k] := by
  rw [mapSet_of_not_mem m k v h]; simp

theorem find_update_of_ne (m : List (ℕ × α)) (k k' : ℕ) (v : α) (h : k' ≠ k) :
    List.find? (fun p => p.1 == k') (m.map (fun p => if p.1 = k then (k, v) else p)) =
      List.find? (fun p => p.1 == k') m := by
  induction m with
  | nil => rfl
  | cons p m ih =>
    by_cases hpk : p.1 = k
    · rw [List.map_cons, if_pos hpk,
        List.find?_cons_of_neg _ (by simpa [beq_iff_eq] using fun e => h e.symm),
        List.find?_cons_of_neg _ (by simp [beq_iff_eq, hpk]; exact fun e => h e.symm)]
      exact ih
    · rw [List.map_cons, if_neg hpk]
      cases hpk' : (p.1 == k')
      · rw [List.find?_cons_of_neg _ (by simp [hpk']),
          List.find?_cons_of_neg _ (by simp [hpk'])]
        exact ih
      · rw [List.find?_cons_of_pos _ (by simp [hpk']),
          List.find?_cons_of_pos _ (by simp [hpk'])]

theorem find_update_self (m : List (ℕ × α)) (k : ℕ) (v : α)
    (h : k ∈ m.map Prod.fst) :
    List.find? (fun p => p.1 == k) (m.map (fun p => if p.1 = k then (k, v) else p)) =
      some (k, v) := by
  induction m with
  | nil => simp at h
  | cons p m ih =>
    rw [List.map_cons] at h
    by_cases hpk : p.1 = k
    · rw [List.map_cons, if_pos hpk, List.find?_cons_of_pos _ (by simp)]
    · have hm : k ∈ m.map Prod.fst := by
        rcases List.mem_cons.mp h with h1 | h1
        · exact absurd h1.symm hpk
        · exact h1
      rw [List.map_cons, if_neg hpk,
        List.find?_cons_of_neg _ (by simp [beq_iff_eq, hpk])]
      exact ih hm

theorem mapGet_mapSet_self (m : List (ℕ × α)) (k : ℕ) (v : α) :
    mapGet (mapSet m k v) k = some v := by
  rw [mapSet]
  split
  · rename_i hhas
    unfold mapGet
    rw [find_update_self m k v ((mapHas_eq_true_iff m k).mp hhas)]
    rfl
  · rename_i hhas
    have hk : k ∉ m.map Prod.fst := fun hm => hhas ((mapHas_eq_true_iff m k).mpr hm)
    rw [mapGet_append_of_not_mem m _ k hk]
    simp [mapGet]

theorem mapGet_mapSet_of_ne (m : List (ℕ × α)) (k k' : ℕ) (v : α) (h : k' ≠ k) :
    mapGet (mapSet m k v) k' = mapGet m k' := by
  rw [mapSet]
  split
  · unfold mapGet
    rw [find_update_of_ne m k k' v h]
  · rename_i hhas
    have hk : k ∉ m.map Prod.fst := fun hm => hhas ((mapHas_eq_true_iff m k).mpr hm)
    by_cases hk' : k' ∈ m.map Prod.fst
    · exact mapGet_append_left m _ k' hk'
    · rw [mapGet_append_of_not_mem m _ k' hk']
      have h1 : mapGet [(k, v)] k' = none := by
        rw [mapGet_eq_none_iff]
        simp only [List.map_cons, List.map_nil, List.mem_singleton]
        exact h
      rw [h1, (mapGet_eq_none_iff m k').mpr hk']

/-! ### `findBestMatch` analysis -/

theorem foldl_eq_bestScan (trackBox : BoundingBox) (used : List ℕ) :
    ∀ (ps : List (ℕ × FaceResult)) (acc : ℚ × Option (ℕ × FaceResult)),
      ps.foldl
        (fun best p =>
          if p.1 ∈ used then best
          else
            let iou := calculateIoU trackBox p.2.boundingBox
            if iou > best.1 ∧ iou > IOU_THRESHOLD then (iou, some p) else best) acc =
      bestScan trackBox used acc ps := by
  intro ps
  induction ps with
  | nil => intro acc; rfl
  | cons p ps ih =>
    intro acc
    rw [List.foldl_cons, bestScan]
    exact ih _

theorem findBestMatch_eq_bestScan (trackBox : BoundingBox)
    (newDetections : List FaceResult) (used : List ℕ) :
    findBestMatch trackBox newDetections used =
      bestScan trackBox used (0, none) newDetections.enum := by
  unfold findBestMatch
  exact foldl_eq_bestScan trackBox used newDetections.enum (0, none)

theorem bestScan_spec (trackBox : BoundingBox) (used : List ℕ) :
    ∀ (ps : List (ℕ × FaceResult)) (acc : ℚ × Option (ℕ × FaceResult)),
      AccOk trackBox used acc →
      AccOk trackBox used (bestScan trackBox used acc ps) ∧
      (bestScan trackBox used acc ps = acc ∨
        ∃ p ∈ ps, (bestScan trackBox used acc ps).2 = some p) ∧
      (∀ p ∈ ps, p.1 ∉ used →
        calculateIoU trackBox p.2.boundingBox ≤
          max (bestScan trackBox used acc ps).1 IOU_THRESHOLD) ∧
      acc.1 ≤ (bestScan trackBox used acc ps).1 := by
  intro ps
  induction ps with
  | nil =>
    intro acc hacc
    exact ⟨hacc, Or.inl rfl, by simp, le_refl _⟩
  | cons p ps ih =>
    intro acc hacc
    rw [bestScan]
    by_cases hused : p.1 ∈ used
    · rw [if_pos hused]
      obtain ⟨h1, h2, h3, h4⟩ := ih acc hacc
      refine ⟨h1, ?_, ?_, h4⟩
      · rcases h2 with h2 | ⟨q, hq, h2⟩
        · exact Or.inl h2
        · exact Or.inr ⟨q, List.mem_cons_of_mem _ hq, h2⟩
      · intro q hq hqu
        rcases List.mem_cons.mp hq with rfl | hq'
        · exact absurd hused hqu
        · exact h3 q hq' hqu
    · rw [if_neg hused]
      by_cases hcond : calculateIoU trackBox p.2.boundingBox > acc.1 ∧
          calculateIoU trackBox p.2.boundingBox > IOU_THRESHOLD
      · rw [if_pos hcond]
        have hacc' : AccOk trackBox used (calculateIoU trackBox p.2.boundingBox, some p) := by
          intro i d hid
          have hp : p = (i, d) := Option.some.inj hid
          subst hp
          exact ⟨hused, rfl, hcond.2⟩
        obtain ⟨h1, h2, h3, h4⟩ := ih _ hacc'
        refine ⟨h1, ?_, ?_, le_trans (le_of_lt hcond.1) h4⟩
        · rcases h2 with h2 | ⟨q, hq, h2⟩
          · exact Or.inr ⟨p, List.mem_cons_self _ _, by rw [h2]⟩
          · exact Or.inr ⟨q, List.mem_cons_of_mem _ hq, h2⟩
        · intro q hq hqu
          rcases List.mem_cons.mp hq with rfl | hq'
          · exact le_trans h4 (le_max_left _ _)
          · exact h3 q hq' hqu
      · rw [if_neg hcond]
        obtain ⟨h1, h2, h3, h4⟩ := ih acc hacc
        refine ⟨h1, ?_, ?_, h4⟩
        · rcases h2 with h2 | ⟨q, hq, h2⟩
          · exact Or.inl h2
          · exact Or.inr ⟨q, List.mem_cons_of_mem _ hq, h2⟩
        · intro q hq hqu
          rcases List.mem_cons.mp hq with rfl | hq'
          · rcases not_and_or.mp hcond with hc | hc
            · exact le_trans (not_lt.mp hc) (le_trans h4 (le_max_left _ _))
            · exact le_trans (not_lt.mp hc) (le_max_right _ _)
          · exact h3 q hq' hqu

theorem bestScan_no_update (trackBox : BoundingBox) (used : List ℕ) :
    ∀ (ps : List (ℕ × FaceResult)) (acc : ℚ × Option (ℕ × FaceResult)),
      (∀ p ∈ ps, p.1 ∉ used → calculateIoU trackBox p.2.boundingBox ≤ IOU_THRESHOLD) →
      bestScan trackBox used acc ps = acc := by
  intro ps
  induction ps with
  | nil => intro acc _; rfl
  | cons p ps ih =>
    intro acc h
    rw [bestScan]
    by_cases hused : p.1 ∈ used
    · rw [if_pos hused]
      exact ih acc (fun q hq => h q (List.mem_cons_of_mem _ hq))
    · rw [if_neg hused]
      have hle : calculateIoU trackBox p.2.boundingBox ≤ IOU_THRESHOLD :=
        h p (List.mem_cons_self _ _) hused
      rw [if_neg (fun hc => absurd hle (not_le.mpr hc.2))]
      exact ih acc (fun q hq => h q (List.mem_cons_of_mem _ hq))

theorem findBestMatch_some_spec (trackBox : BoundingBox)
    (newDetections : List FaceResult) (used : List ℕ) :
    ∀ i d, (findBestMatch trackBox newDetections used).2 = some (i, d) →
      i ∉ used ∧ newDetections[i]? = some d ∧
      IOU_THRESHOLD < calculateIoU trackBox d.boundingBox ∧
      ∀ j e, newDetections[j]? = some e → j ∉ used →
        calculateIoU trackBox e.boundingBox ≤ calculateIoU trackBox d.boundingBox := by
  rw [findBestMatch_eq_bestScan]
  obtain ⟨h1, h2, h3, _⟩ :=
    bestScan_spec trackBox used newDetections.enum (0, none) (by intro i d h; cases h)
  intro i d hr
  obtain ⟨hiu, hsc, hth⟩ := h1 i d hr
  have hmem : (i, d) ∈ newDetections.enum := by
    rcases h2 with h2 | ⟨p, hp, h2⟩
    · rw [h2] at hr; cases hr
    · rw [h2] at hr
      obtain rfl := Option.some.inj hr
      exact hp
  refine ⟨hiu, List.mem_enum_iff_getElem?.mp hmem, hsc ▸ hth, ?_⟩
  intro j e hj hju
  have hb := h3 (j, e) (List.mem_enum_iff_getElem?.mpr hj) hju
  rw [max_eq_left (le_of_lt hth), hsc] at hb
  exact hb

theorem findBestMatch_none_iff (trackBox : BoundingBox)
    (newDetections : List FaceResult) (used : List ℕ) :
    (findBestMatch trackBox newDetections used).2 = none ↔
      ∀ j e, newDetections[j]? = some e → j ∉ used →
        calculateIoU trackBox e.boundingBox ≤ IOU_THRESHOLD := by
  rw [findBestMatch_eq_bestScan]
  obtain ⟨_, h2, h3, _⟩ :=
    bestScan_spec trackBox used newDetections.enum (0, none) (by intro i d h; cases h)
  constructor
  · intro hr j e hj hju
    have hres : bestScan trackBox used (0, none) newDetections.enum = (0, none) := by
      rcases h2 with h2 | ⟨p, hp, h2⟩
      · exact h2
      · rw [h2] at hr; cases hr
    have hb := h3 (j, e) (List.mem_enum_iff_getElem?.mpr hj) hju
    rw [hres] at hb
    simpa [max_eq_right (show (0 : ℚ) ≤ IOU_THRESHOLD by norm_num [IOU_THRESHOLD])]
      using hb
  · intro hall
    rw [bestScan_no_update trackBox used newDetections.enum (0, none)
      (fun p hp hpu => hall p.1 p.2 (List.mem_enum_iff_getElem?.mp hp) hpu)]

/-- Claim C1: for each track the reconciler selects, among the
not-yet-consumed detections, one with the maximal overlap score against
the track's last known region, and records a match exactly when some
unconsumed detection's score strictly exceeds the 0.4 threshold: a score
of exactly 0.4 never matches, while any score above 0.4 matches when no
competing unconsumed detection scores higher. -/
theorem findBestMatch_strict_threshold_and_maximal
    (trackBox : BoundingBox) (newDetections : List FaceResult) (used : List ℕ) :
    (∀ i d, (findBestMatch trackBox newDetections used).2 = some (i, d) →
      i ∉ used ∧ newDetections[i]? = some d ∧
      IOU_THRESHOLD < calculateIoU trackBox d.boundingBox ∧
      ∀ j e, newDetections[j]? = some e → j ∉ used →
        calculateIoU trackBox e.boundingBox ≤ calculateIoU trackBox d.boundingBox) ∧
    ((findBestMatch trackBox newDetections used).2 = none ↔
      ∀ j e, newDetections[j]? = some e → j ∉ used →
        calculateIoU trackBox e.boundingBox ≤ IOU_THRESHOLD) :=
  ⟨findBestMatch_some_spec trackBox newDetections used,
   findBestMatch_none_iff trackBox newDetections used⟩

/-- Witness for C1: with track region `witnessTrackBox`, the detection
scoring exactly 0.4 yields no match, while the detection scoring 3/7
(above 0.4) is matched and is maximal among unconsumed detections. -/
theorem findBestMatch_strict_threshold_and_maximal_witness :
    (findBestMatch witnessTrackBox [exactThresholdFace] []).2 = none ∧
    (0 : ℕ) ∉ ([] : List ℕ) ∧
    IOU_THRESHOLD < calculateIoU witnessTrackBox aboveThresholdFace.boundingBox ∧
    ∀ j e, [aboveThresholdFace][j]? = some e → j ∉ ([] : List ℕ) →
      calculateIoU witnessTrackBox e.boundingBox ≤
        calculateIoU witnessTrackBox aboveThresholdFace.boundingBox := by
  have hex : ∀ j e, [exactThresholdFace][j]? = some e → j ∉ ([] : List ℕ) →
      calculateIoU witnessTrackBox e.boundingBox ≤ IOU_THRESHOLD := by
    intro j e hj _
    cases j with
    | zero =>
      rcases (show exactThresholdFace = e by simpa using hj) with rfl
      norm_num [calculateIoU, IOU_THRESHOLD, witnessTrackBox, exactThresholdFace, sampleFace]
    | succ n => simp at hj
  have h1 := (findBestMatch_strict_threshold_and_maximal witnessTrackBox
      [exactThresholdFace] []).2.mpr hex
  have hsome : (findBestMatch witnessTrackBox [aboveThresholdFace] []).2 =
      some (0, aboveThresholdFace) := by
    norm_num [findBestMatch, List.enum, List.enumFrom, calculateIoU, IOU_THRESHOLD,
      witnessTrackBox, aboveThresholdFace, sampleFace]
  have h2 := (findBestMatch_strict_threshold_and_maximal witnessTrackBox
      [aboveThresholdFace] []).1 0 aboveThresholdFace hsome
  exact ⟨h1, h2.1, h2.2.2.1, h2.2.2.2⟩

/-! ### `matchTracks` analysis -/

theorem foldl_eq_matchScan (newDetections : List FaceResult) :
    ∀ (table : TrackTable) (acc : List MatchedPair × List ℕ),
      table.foldl
        (fun acc tr =>
          match (findBestMatch tr.2.boundingBox newDetections acc.2).2 with
          | some (i, d) => (acc.1 ++ [⟨tr.1, d, i⟩], acc.2 ++ [i])
          | none => acc) acc =
      matchScan newDetections acc table := by
  intro table
  induction table with
  | nil => intro acc; rfl
  | cons tr rest ih =>
    intro acc
    rw [List.foldl_cons, matchScan]
    exact ih _

theorem nodup_append_singleton {l : List ℕ} {a : ℕ} (h : l.Nodup) (ha : a ∉ l) :
    (l ++ [a]).Nodup := by
  rw [List.nodup_append]
  exact ⟨h, List.nodup_singleton a,
    fun x hx hxa => ha ((List.mem_singleton.mp hxa) ▸ hx)⟩

theorem matchScan_spec (newDetections : List FaceResult) :
    ∀ (table : TrackTable) (acc : List MatchedPair × List ℕ),
      acc.2 = acc.1.map (fun p => p.detectionIndex) →
      acc.2.Nodup →
      (matchScan newDetections acc table).2 =
        (matchScan newDetections acc table).1.map (fun p => p.detectionIndex) ∧
      (matchScan newDetections acc table).2.Nodup ∧
      ∃ ext, (matchScan newDetections acc table).1 = acc.1 ++ ext ∧
        (ext.map (fun p => p.trackId)).Sublist (table.map Prod.fst) ∧
        ∀ p ∈ ext, newDetections[p.detectionIndex]? = some p.detection := by
  intro table
  induction table with
  | nil =>
    intro acc h1 h2
    exact ⟨h1, h2, [], by simp [matchScan], List.nil_sublist _, by simp⟩
  | cons tr rest ih =>
    intro acc h1 h2
    rw [matchScan]
    rcases hf : (findBestMatch tr.2.boundingBox newDetections acc.2).2 with _ | ⟨i, d⟩
    · simp only [hf]
      obtain ⟨g1, g2, ext, hext, hsub, hdet⟩ := ih acc h1 h2
      refine ⟨g1, g2, ext, hext, ?_, hdet⟩
      simp only [List.map_cons]
      exact hsub.cons _
    · simp only [hf]
      obtain ⟨hiu, hget, _, _⟩ :=
        findBestMatch_some_spec tr.2.boundingBox newDetections acc.2 i d hf
      have h1' : (acc.2 ++ [i]) =
          (acc.1 ++ [MatchedPair.mk tr.1 d i]).map (fun p => p.detectionIndex) := by
        simp [h1]
      have h2' : (acc.2 ++ [i]).Nodup := nodup_append_singleton h2 hiu
      obtain ⟨g1, g2, ext', hext', hsub', hdet'⟩ :=
        ih (acc.1 ++ [MatchedPair.mk tr.1 d i], acc.2 ++ [i]) h1' h2'
      refine ⟨g1, g2, MatchedPair.mk tr.1 d i :: ext', ?_, ?_, ?_⟩
      · rw [hext']
        simp
      · simp only [List.map_cons]
        exact hsub'.cons₂ _
      · intro p hp
        rcases List.mem_cons.mp hp with rfl | hp'
        · exact hget
        · exact hdet' p hp'

/-- Claim C7: within one reconcile call the recorded matches form an
injective partial assignment: no detection index occurs in two matched
pairs and no track id occurs in two matched pairs, for every Track Table
(whose keys are distinct, a JS `Map` invariant) and every detection
list. -/
theorem matchTracks_injective (trackedFaces : TrackTable)
    (newDetections : List FaceResult)
    (hkeys : (trackedFaces.map Prod.fst).Nodup) :
    ((matchTracks trackedFaces newDetections).1.map
      (fun p => p.detectionIndex)).Nodup ∧
    ((matchTracks trackedFaces newDetections).1.map (fun p => p.trackId)).Nodup := by
  have heq : matchTracks trackedFaces newDetections =
      matchScan newDetections ([], []) trackedFaces :=
    foldl_eq_matchScan newDetections trackedFaces ([], [])
  obtain ⟨g1, g2, ext, hext, hsub, _⟩ :=
    matchScan_spec newDetections trackedFaces ([], []) rfl List.nodup_nil
  rw [heq]
  constructor
  · rw [← g1]
    exact g2
  · have hx : (matchScan newDetections ([], []) trackedFaces).1 = ext := by
      simpa using hext
    rw [hx]
    exact List.Nodup.sublist hsub hkeys

/-- Witness for C7 at a concrete two-track table and empty detection
list. -/
theorem matchTracks_injective_witness :
    ((matchTracks [(1, sampleTrack ⟨0, 0, 10, 10⟩ 0), (2, sampleTrack ⟨8, 0, 10, 10⟩ 0)]
        []).1.map (fun p => p.detectionIndex)).Nodup ∧
    ((matchTracks [(1, sampleTrack ⟨0, 0, 10, 10⟩ 0), (2, sampleTrack ⟨8, 0, 10, 10⟩ 0)]
        []).1.map (fun p => p.trackId)).Nodup :=
  matchTracks_injective _ _ (by decide)

/-- Claim C2 (amended): tracks are considered for matching in the
insertion order of the Track Table, and when two live tracks could both
claim the same detection (both scores above the threshold) the track
that appears earlier in the table's insertion order consumes it.  Table
insertion order, however, is not always track-creation order (see the
counterexample): a track carried forward unmatched is re-inserted after
newly created tracks, so a later-created track can precede an older one
and win a contested detection. -/
theorem matchTracks_earlier_entry_wins (t1 t2 : ℕ) (td1 td2 : TrackData) (d : FaceResult)
    (h1 : IOU_THRESHOLD < calculateIoU td1.boundingBox d.boundingBox)
    (h2 : IOU_THRESHOLD < calculateIoU td2.boundingBox d.boundingBox) :
    (matchTracks [(t1, td1), (t2, td2)] [d]).1.map
      (fun p => (p.trackId, p.detectionIndex)) = [(t1, 0)] := by
  have e1 : (findBestMatch td1.boundingBox [d] []).2 = some (0, d) := by
    rcases hr : (findBestMatch td1.boundingBox [d] []).2 with _ | ⟨i, e⟩
    · have hle := (findBestMatch_none_iff td1.boundingBox [d] []).mp hr 0 d
        (by simp) (by simp)
      exact absurd h1 (not_lt.mpr hle)
    · obtain ⟨_, hget, _, _⟩ := findBestMatch_some_spec td1.boundingBox [d] [] i e hr
      cases i with
      | zero =>
        have he : d = e := by simpa using hget
        rw [he]
      | succ n => simp at hget
  have e2 : (findBestMatch td2.boundingBox [d] [0]).2 = none := by
    rw [findBestMatch_none_iff]
    intro j e hj hju
    cases j with
    | zero => simp at hju
    | succ n => simp at hj
  unfold matchTracks
  simp only [List.foldl_cons, List.foldl_nil]
  simp only [e1, List.nil_append]
  rw [e2]
  simp

/-- Witness for the amended C2 at concrete tracks and a concrete
contested detection. -/
theorem matchTracks_earlier_entry_wins_witness :
    (matchTracks [(1, sampleTrack ⟨0, 0, 10, 10⟩ 1000),
        (2, sampleTrack ⟨8, 0, 10, 10⟩ 2000)] [contestedFace]).1.map
      (fun p => (p.trackId, p.detectionIndex)) = [(1, 0)] :=
  matchTracks_earlier_entry_wins 1 2 _ _ _
    (by norm_num [calculateIoU, IOU_THRESHOLD, sampleTrack, contestedFace, sampleFace])
    (by norm_num [calculateIoU, IOU_THRESHOLD, sampleTrack, contestedFace, sampleFace])

/-- Counterexample to claim C2 as stated: in a reachable Track Table
(track 1 created in cycle one, track 2 created in cycle two while track
1 was carried forward unmatched), the younger track 2 precedes the older
track 1 in insertion order; a detection that both live tracks could
claim (both overlap scores are 3/7 > 0.4) is consumed by the younger
track 2, not by the earlier-created track 1. -/
theorem matchTracks_creation_order_counterexample :
    (runSession initialSessionState [([cycleOneFace], 1000)]).trackedFaces.map Prod.fst
      = [1] ∧
    (runSession initialSessionState
        [([cycleOneFace], 1000), ([cycleTwoFace], 2000)]).trackedFaces.map Prod.fst
      = [2, 1] ∧
    mapGet (runSession initialSessionState
        [([cycleOneFace], 1000), ([cycleTwoFace], 2000)]).trackedFaces 1
      = some ⟨⟨0, 0, 10, 10⟩, 1000, "p1"⟩ ∧
    mapGet (runSession initialSessionState
        [([cycleOneFace], 1000), ([cycleTwoFace], 2000)]).trackedFaces 2
      = some ⟨⟨8, 0, 10, 10⟩, 2000, "p2"⟩ ∧
    IOU_THRESHOLD < calculateIoU ⟨0, 0, 10, 10⟩ contestedFace.boundingBox ∧
    IOU_THRESHOLD < calculateIoU ⟨8, 0, 10, 10⟩ contestedFace.boundingBox ∧
    (matchTracks (runSession initialSessionState
        [([cycleOneFace], 1000), ([cycleTwoFace], 2000)]).trackedFaces
      [contestedFace]).1.map (fun p => (p.trackId, p.detectionIndex)) = [(2, 0)] := by
  norm_num [runSession, reconcile, initialSessionState, matchTracks, findBestMatch,
    calculateIoU, IOU_THRESHOLD, MAX_INACTIVITY_MS, applyMatches, createNewTracks,
    carryForward, mapSet, mapHas, mapGet, cycleOneFace, cycleTwoFace, contestedFace,
    sampleFace, List.enum, List.enumFrom]

/-! ### Similarity-scorer edge cases -/

/-- Claim C8: for every pair of regions where either region has
non-positive width or height, and likewise when both areas are zero (the
case whose JS division would produce `NaN`), `calculateIoU` returns
exactly 0; being a total function it never signals an error. -/
theorem calculateIoU_degenerate_zero (boxA boxB : BoundingBox) :
    ((boxA.width ≤ 0 ∨ boxA.height ≤ 0 ∨ boxB.width ≤ 0 ∨ boxB.height ≤ 0) →
      calculateIoU boxA boxB = 0) ∧
    ((boxA.width * boxA.height = 0 ∧ boxB.width * boxB.height = 0) →
      calculateIoU boxA boxB = 0) := by
  constructor
  · intro h
    simp only [calculateIoU]
    by_cases hg : boxA.width * boxA.height ≤ 0 ∨ boxB.width * boxB.height ≤ 0
    · rw [if_pos hg]
    · rw [if_neg hg]
      push_neg at hg
      obtain ⟨hA, hB⟩ := hg
      have hnum : max 0 (min (boxA.x + boxA.width) (boxB.x + boxB.width) -
          max boxA.x boxB.x) *
          max 0 (min (boxA.y + boxA.height) (boxB.y + boxB.height) -
          max boxA.y boxB.y) = 0 := by
        rcases h with h | h | h | h
        · have hw : boxA.width < 0 := lt_of_le_of_ne h (fun e => by
            rw [e, zero_mul] at hA; exact lt_irrefl 0 hA)
          have h1 : min (boxA.x + boxA.width) (boxB.x + boxB.width) ≤
              boxA.x + boxA.width := min_le_left _ _
          have h2 : boxA.x ≤ max boxA.x boxB.x := le_max_left _ _
          rw [max_eq_left (by linarith :
            min (boxA.x + boxA.width) (boxB.x + boxB.width) -
              max boxA.x boxB.x ≤ 0), zero_mul]
        · have hh : boxA.height < 0 := lt_of_le_of_ne h (fun e => by
            rw [e, mul_zero] at hA; exact lt_irrefl 0 hA)
          have h1 : min (boxA.y + boxA.height) (boxB.y + boxB.height) ≤
              boxA.y + boxA.height := min_le_left _ _
          have h2 : boxA.y ≤ max boxA.y boxB.y := le_max_left _ _
          rw [max_eq_left (by linarith :
            min (boxA.y + boxA.height) (boxB.y + boxB.height) -
              max boxA.y boxB.y ≤ 0), mul_zero]
        · have hw : boxB.width < 0 := lt_of_le_of_ne h (fun e => by
            rw [e, zero_mul] at hB; exact lt_irrefl 0 hB)
          have h1 : min (boxA.x + boxA.width) (boxB.x + boxB.width) ≤
              boxB.x + boxB.width := min_le_right _ _
          have h2 : boxB.x ≤ max boxA.x boxB.x := le_max_right _ _
          rw [max_eq_left (by linarith :
            min (boxA.x + boxA.width) (boxB.x + boxB.width) -
              max boxA.x boxB.x ≤ 0), zero_mul]
        · have hh : boxB.height < 0 := lt_of_le_of_ne h (fun e => by
            rw [e, mul_zero] at hB; exact lt_irrefl 0 hB)
          have h1 : min (boxA.y + boxA.height) (boxB.y + boxB.height) ≤
              boxB.y + boxB.height := min_le_right _ _
          have h2 : boxB.y ≤ max boxA.y boxB.y := le_max_right _ _
          rw [max_eq_left (by linarith :
            min (boxA.y + boxA.height) (boxB.y + boxB.height) -
              max boxA.y boxB.y ≤ 0), mul_zero]
      rw [hnum, zero_div]
  · intro h
    simp only [calculateIoU]
    rw [if_pos (Or.inl (le_of_eq h.1))]

/-- Witness for C8: a zero-width region and a pair of zero-area regions
both score 0. -/
theorem calculateIoU_degenerate_zero_witness :
    calculateIoU ⟨0, 0, 0, 10⟩ ⟨0, 0, 10, 10⟩ = 0 ∧
    calculateIoU ⟨0, 0, 0, 0⟩ ⟨2, 2, 0, 0⟩ = 0 :=
  ⟨(calculateIoU_degenerate_zero _ _).1 (Or.inl (by norm_num)),
   (calculateIoU_degenerate_zero _ _).2 ⟨by norm_num, by norm_num⟩⟩

/-! ### Session handlers and failure semantics -/

/-- Counterexample to claim C3 as stated: stopping an active capture
session does not reset the next-identifier counter to 1 — with the
counter at 5, it is still 5 after `handleStopCamera`.  (The counter is
reset by `handleStartCamera` instead.) -/
theorem handleStopCamera_counter_counterexample :
    exampleStopState.stream = true ∧
    (handleStopCamera exampleStopState).nextFaceId = 5 ∧
    (handleStopCamera exampleStopState).nextFaceId ≠ 1 := by
  refine ⟨rfl, rfl, ?_⟩
  intro h
  simp [handleStopCamera, exampleStopState] at h

/-- Claim C3 (amended): when a capture session is active, the stop
operation synchronously stops the stream, clears the displayed result,
clears the Track Table and cancels the rate-limit pause, but leaves the
next-identifier counter unchanged; the counter (together with the table
and the pause flag) is reset to its initial value 1 by the synchronous
prefix of the next start operation. -/
theorem handleStopCamera_spec (s : AppState) (h : s.stream = true) :
    (handleStopCamera s).stream = false ∧
    (handleStopCamera s).detectionFaces = [] ∧
    (handleStopCamera s).trackedFaces = [] ∧
    (handleStopCamera s).isPausedForRateLimit = false ∧
    (handleStopCamera s).nextFaceId = s.nextFaceId ∧
    (handleStartCameraReset s).trackedFaces = [] ∧
    (handleStartCameraReset s).nextFaceId = 1 ∧
    (handleStartCameraReset s).isPausedForRateLimit = false := by
  simp [handleStopCamera, handleStartCameraReset, h]

/-- Witness for the amended C3 at the concrete active-session state. -/
theorem handleStopCamera_spec_witness :
    (handleStopCamera exampleStopState).stream = false ∧
    (handleStopCamera exampleStopState).detectionFaces = [] ∧
    (handleStopCamera exampleStopState).trackedFaces = [] ∧
    (handleStopCamera exampleStopState).isPausedForRateLimit = false ∧
    (handleStopCamera exampleStopState).nextFaceId = exampleStopState.nextFaceId ∧
    (handleStartCameraReset exampleStopState).trackedFaces = [] ∧
    (handleStartCameraReset exampleStopState).nextFaceId = 1 ∧
    (handleStartCameraReset exampleStopState).isPausedForRateLimit = false :=
  handleStopCamera_spec exampleStopState rfl

/-- Claim C9: when the per-cycle detection call fails with the
non-rate-limit error, the Track Table, the next-identifier counter, and
the attendance bookkeeping are exactly the same after the cycle as
before it. -/
theorem captureAndAnalyze_failure_preserves_tracks (s : AppState) (currentTime : ℤ) :
    (captureAndAnalyze s DetectionOutcome.otherError currentTime).trackedFaces =
      s.trackedFaces ∧
    (captureAndAnalyze s DetectionOutcome.otherError currentTime).nextFaceId =
      s.nextFaceId ∧
    (captureAndAnalyze s DetectionOutcome.otherError currentTime).lastAttendanceLog =
      s.lastAttendanceLog ∧
    (captureAndAnalyze s DetectionOutcome.otherError currentTime).attendance =
      s.attendance :=
  ⟨rfl, rfl, rfl, rfl⟩

/-! ### Rebuilding the Track Table: `applyMatches`, `createNewTracks`,
`carryForward` -/

theorem applyMatches_foldl_keys (currentTime : ℤ) :
    ∀ (pairs : List MatchedPair) (t0 : TrackTable),
      (pairs.map (fun p => p.trackId)).Nodup →
      (∀ p ∈ pairs, p.trackId ∉ t0.map Prod.fst) →
      (pairs.foldl (fun t p =>
        mapSet t p.trackId ⟨p.detection.boundingBox, currentTime, p.detection.personId⟩)
        t0).map Prod.fst = t0.map Prod.fst ++ pairs.map (fun p => p.trackId) := by
  intro pairs
  induction pairs with
  | nil => intro t0 _ _; simp
  | cons p ps ih =>
    intro t0 hnd hdisj
    rw [List.foldl_cons]
    have hp : p.trackId ∉ t0.map Prod.fst := hdisj p (List.mem_cons_self _ _)
    have hnd0 : (∀ x ∈ ps, ¬ x.trackId = p.trackId) ∧
        (ps.map (fun q => q.trackId)).Nodup := by simpa using hnd
    have hdisj' : ∀ q ∈ ps, q.trackId ∉
        (mapSet t0 p.trackId
          ⟨p.detection.boundingBox, currentTime, p.detection.personId⟩).map Prod.fst := by
      intro q hq
      rw [keys_mapSet_of_not_mem t0 p.trackId _ hp]
      intro hmem
      rcases List.mem_append.mp hmem with hm | hm
      · exact hdisj q (List.mem_cons_of_mem _ hq) hm
      · exact hnd0.1 q hq (List.mem_singleton.mp hm)
    rw [ih _ hnd0.2 hdisj', keys_mapSet_of_not_mem t0 p.trackId _ hp]
    simp

theorem applyMatches_keys (pairs : List MatchedPair) (currentTime : ℤ)
    (hnd : (pairs.map (fun p => p.trackId)).Nodup) :
    (applyMatches pairs currentTime).map Prod.fst = pairs.map (fun p => p.trackId) := by
  have h := applyMatches_foldl_keys currentTime pairs [] hnd (by simp)
  simpa [applyMatches] using h

theorem createNewTracks_spec (used : List ℕ) (currentTime : ℤ) :
    ∀ (l : List FaceResult) (i0 n0 : ℕ) (t0 : TrackTable) (st0 : List (ℕ × ℕ)),
      (∀ k ∈ t0.map Prod.fst, k < n0) →
      n0 ≤ (createNewTracks used currentTime l i0 n0 t0 st0).1 ∧
      ∃ ns, (createNewTracks used currentTime l i0 n0 t0 st0).2.2 = st0 ++ ns ∧
        List.Chain' (· < ·) (ns.map Prod.snd) ∧
        (∀ q ∈ ns, n0 ≤ q.2 ∧ q.2 < (createNewTracks used currentTime l i0 n0 t0 st0).1) ∧
        (createNewTracks used currentTime l i0 n0 t0 st0).2.1.map Prod.fst =
          t0.map Prod.fst ++ ns.map Prod.snd ∧
        ∀ k, k < n0 →
          mapGet (createNewTracks used currentTime l i0 n0 t0 st0).2.1 k = mapGet t0 k := by
  intro l
  induction l with
  | nil =>
    intro i0 n0 t0 st0 _
    exact ⟨le_refl _, [], by simp [createNewTracks], by simp, by simp,
      by simp [createNewTracks], fun k _ => rfl⟩
  | cons d rest ih =>
    intro i0 n0 t0 st0 hlt
    rw [createNewTracks]
    by_cases hi : i0 ∈ used
    · rw [if_pos hi]
      exact ih (i0 + 1) n0 t0 st0 hlt
    · rw [if_neg hi]
      have hfresh : n0 ∉ t0.map Prod.fst := fun hmem => lt_irrefl n0 (hlt n0 hmem)
      have hlt' : ∀ k ∈
          (mapSet t0 n0 ⟨d.boundingBox, currentTime, d.personId⟩).map Prod.fst,
          k < n0 + 1 := by
        intro k hk
        rw [keys_mapSet_of_not_mem t0 n0 _ hfresh] at hk
        rcases List.mem_append.mp hk with hm | hm
        · exact lt_trans (hlt k hm) (Nat.lt_succ_self n0)
        · rw [List.mem_singleton.mp hm]; exact Nat.lt_succ_self n0
      obtain ⟨ha, ns', hst, hch, hbnd, hkeys, hget⟩ :=
        ih (i0 + 1) (n0 + 1) (mapSet t0 n0 ⟨d.boundingBox, currentTime, d.personId⟩)
          (st0 ++ [(i0, n0)]) hlt'
      refine ⟨le_trans (Nat.le_succ n0) ha, (i0, n0) :: ns', ?_, ?_, ?_, ?_, ?_⟩
      · rw [hst]; simp
      · rw [List.map_cons, List.chain'_cons']
        constructor
        · intro y hy
          have hym : y ∈ ns'.map Prod.snd := List.mem_of_mem_head? hy
          rcases List.mem_map.mp hym with ⟨q, hq, rfl⟩
          exact lt_of_lt_of_le (Nat.lt_succ_self n0) (hbnd q hq).1
        · exact hch
      · intro q hq
        rcases List.mem_cons.mp hq with rfl | hq'
        · exact ⟨le_refl n0, lt_of_lt_of_le (Nat.lt_succ_self n0) ha⟩
        · obtain ⟨hb1, hb2⟩ := hbnd q hq'
          exact ⟨le_trans (Nat.le_succ n0) hb1, hb2⟩
      · rw [hkeys, keys_mapSet_of_not_mem t0 n0 _ hfresh]
        simp
      · intro k hk
        rw [hget k (lt_trans hk (Nat.lt_succ_self n0)),
          mapGet_mapSet_of_ne t0 n0 k _ (Nat.ne_of_lt hk)]

theorem carryForward_cons (tr : ℕ × TrackData) (rest : TrackTable) (currentTime : ℤ)
    (t0 : TrackTable) :
    carryForward (tr :: rest) currentTime t0 =
      carryForward rest currentTime
        (if currentTime - tr.2.lastSeen ≤ MAX_INACTIVITY_MS ∧ ¬ mapHas t0 tr.1 then
          mapSet t0 tr.1 tr.2 else t0) := rfl

theorem carryForward_keys_mono (currentTime : ℤ) :
    ∀ (old t0 : TrackTable) (k : ℕ), k ∈ t0.map Prod.fst →
      k ∈ (carryForward old currentTime t0).map Prod.fst := by
  intro old
  induction old with
  | nil => intro t0 k hk; exact hk
  | cons tr rest ih =>
    intro t0 k hk
    rw [carryForward_cons]
    by_cases hc : currentTime - tr.2.lastSeen ≤ MAX_INACTIVITY_MS ∧ ¬ mapHas t0 tr.1
    · rw [if_pos hc]
      refine ih _ k ?_
      rw [keys_mapSet_of_not_mem t0 tr.1 _
        (fun hm => hc.2 ((mapHas_eq_true_iff t0 tr.1).mpr hm))]
      exact List.mem_append_left _ hk
    · rw [if_neg hc]
      exact ih t0 k hk

theorem carryForward_mapGet_preserved (currentTime : ℤ) :
    ∀ (old t0 : TrackTable) (k : ℕ), k ∈ t0.map Prod.fst →
      mapGet (carryForward old currentTime t0) k = mapGet t0 k := by
  intro old
  induction old with
  | nil => intro t0 k _; rfl
  | cons tr rest ih =>
    intro t0 k hk
    rw [carryForward_cons]
    by_cases hc : currentTime - tr.2.lastSeen ≤ MAX_INACTIVITY_MS ∧ ¬ mapHas t0 tr.1
    · rw [if_pos hc]
      have hfresh : tr.1 ∉ t0.map Prod.fst :=
        fun hm => hc.2 ((mapHas_eq_true_iff t0 tr.1).mpr hm)
      have hne : k ≠ tr.1 := fun e => hfresh (e ▸ hk)
      have hk' : k ∈ (mapSet t0 tr.1 tr.2).map Prod.fst := by
        rw [keys_mapSet_of_not_mem t0 tr.1 _ hfresh]
        exact List.mem_append_left _ hk
      rw [ih _ k hk', mapGet_mapSet_of_ne t0 tr.1 k _ hne]
    · rw [if_neg hc]
      exact ih t0 k hk

theorem carryForward_not_mem (currentTime : ℤ) :
    ∀ (old t0 : TrackTable) (k : ℕ), k ∉ t0.map Prod.fst →
      (∀ td, (k, td) ∈ old → MAX_INACTIVITY_MS < currentTime - td.lastSeen) →
      k ∉ (carryForward old currentTime t0).map Prod.fst := by
  intro old
  induction old with
  | nil => intro t0 k hk _; exact hk
  | cons tr rest ih =>
    intro t0 k hk hexp
    rw [carryForward_cons]
    by_cases hc : currentTime - tr.2.lastSeen ≤ MAX_INACTIVITY_MS ∧ ¬ mapHas t0 tr.1
    · rw [if_pos hc]
      have hfresh : tr.1 ∉ t0.map Prod.fst :=
        fun hm => hc.2 ((mapHas_eq_true_iff t0 tr.1).mpr hm)
      have hne : tr.1 ≠ k := by
        intro e
        have hmem : (k, tr.2) ∈ tr :: rest := by
          rw [← e]
          exact List.mem_cons_self _ _
        exact absurd hc.1 (not_le.mpr (hexp tr.2 hmem))
      refine ih _ k ?_ (fun td htd => hexp td (List.mem_cons_of_mem _ htd))
      rw [keys_mapSet_of_not_mem t0 tr.1 _ hfresh]
      intro hm
      rcases List.mem_append.mp hm with hm | hm
      · exact hk hm
      · exact hne (List.mem_singleton.mp hm).symm
    · rw [if_neg hc]
      exact ih t0 k hk (fun td htd => hexp td (List.mem_cons_of_mem _ htd))

theorem carryForward_carries (currentTime : ℤ) :
    ∀ (old t0 : TrackTable) (k : ℕ) (td : TrackData),
      (old.map Prod.fst).Nodup → (k, td) ∈ old → k ∉ t0.map Prod.fst →
      currentTime - td.lastSeen ≤ MAX_INACTIVITY_MS →
      mapGet (carryForward old currentTime t0) k = some td := by
  intro old
  induction old with
  | nil => intro t0 k td _ h; cases h
  | cons tr rest ih =>
    intro t0 k td hnd hmem hk htime
    have hnd0 : tr.1 ∉ rest.map Prod.fst ∧ (rest.map Prod.fst).Nodup := by
      rw [List.map_cons, List.nodup_cons] at hnd
      exact hnd
    rw [carryForward_cons]
    rcases List.mem_cons.mp hmem with he | hmem'
    · have hk1 : tr.1 = k := by rw [← he]
      have htd : tr.2 = td := by rw [← he]
      have hc : currentTime - tr.2.lastSeen ≤ MAX_INACTIVITY_MS ∧ ¬ mapHas t0 tr.1 := by
        constructor
        · rw [htd]; exact htime
        · rw [hk1]
          exact fun hb => hk ((mapHas_eq_true_iff t0 k).mp hb)
      rw [if_pos hc]
      have hk' : k ∈ (mapSet t0 tr.1 tr.2).map Prod.fst := by
        rw [keys_mapSet_of_not_mem t0 tr.1 _
          (fun hm => hc.2 ((mapHas_eq_true_iff t0 tr.1).mpr hm)), hk1]
        exact List.mem_append_right _ (List.mem_singleton_self k)
      rw [carryForward_mapGet_preserved currentTime rest _ k hk', hk1, htd]
      exact mapGet_mapSet_self t0 k td
    · have hkrest : k ∈ rest.map Prod.fst := by
        exact List.mem_map_of_mem Prod.fst hmem'
      have hne : k ≠ tr.1 := fun e => hnd0.1 (e ▸ hkrest)
      by_cases hc : currentTime - tr.2.lastSeen ≤ MAX_INACTIVITY_MS ∧ ¬ mapHas t0 tr.1
      · rw [if_pos hc]
        refine ih _ k td hnd0.2 hmem' ?_ htime
        rw [keys_mapSet_of_not_mem t0 tr.1 _
          (fun hm => hc.2 ((mapHas_eq_true_iff t0 tr.1).mpr hm))]
        intro hm
        rcases List.mem_append.mp hm with hm | hm
        · exact hk hm
        · exact hne (List.mem_singleton.mp hm)
      · rw [if_neg hc]
        exact ih t0 k td hnd0.2 hmem' hk htime

theorem carryForward_keys_nodup (currentTime : ℤ) :
    ∀ (old t0 : TrackTable), (t0.map Prod.fst).Nodup →
      ((carryForward old currentTime t0).map Prod.fst).Nodup := by
  intro old
  induction old with
  | nil => intro t0 h; exact h
  | cons tr rest ih =>
    intro t0 hnd
    rw [carryForward_cons]
    by_cases hc : currentTime - tr.2.lastSeen ≤ MAX_INACTIVITY_MS ∧ ¬ mapHas t0 tr.1
    · rw [if_pos hc]
      refine ih _ ?_
      have hfresh : tr.1 ∉ t0.map Prod.fst :=
        fun hm => hc.2 ((mapHas_eq_true_iff t0 tr.1).mpr hm)
      rw [keys_mapSet_of_not_mem t0 tr.1 _ hfresh]
      exact nodup_append_singleton hnd hfresh
    · rw [if_neg hc]
      exact ih t0 hnd

theorem carryForward_keys_subset (currentTime : ℤ) :
    ∀ (old t0 : TrackTable) (k : ℕ),
      k ∈ (carryForward old currentTime t0).map Prod.fst →
      k ∈ t0.map Prod.fst ∨ k ∈ old.map Prod.fst := by
  intro old
  induction old with
  | nil => intro t0 k hk; exact Or.inl hk
  | cons tr rest ih =>
    intro t0 k hk
    rw [carryForward_cons] at hk
    by_cases hc : currentTime - tr.2.lastSeen ≤ MAX_INACTIVITY_MS ∧ ¬ mapHas t0 tr.1
    · rw [if_pos hc] at hk
      rcases ih _ k hk with hm | hm
      · rw [keys_mapSet_of_not_mem t0 tr.1 _
          (fun hm' => hc.2 ((mapHas_eq_true_iff t0 tr.1).mpr hm'))] at hm
        rcases List.mem_append.mp hm with hm | hm
        · exact Or.inl hm
        · right
          rw [List.map_cons, List.mem_singleton.mp hm]
          exact List.mem_cons_self _ _
      · right
        rw [List.map_cons]
        exact List.mem_cons_of_mem _ hm
    · rw [if_neg hc] at hk
      rcases ih t0 k hk with hm | hm
      · exact Or.inl hm
      · right
        rw [List.map_cons]
        exact List.mem_cons_of_mem _ hm

theorem mem_assoc_unique : ∀ (l : List (ℕ × α)), (l.map Prod.fst).Nodup →
    ∀ (k : ℕ) (v v' : α), (k, v) ∈ l → (k, v') ∈ l → v = v' := by
  intro l
  induction l with
  | nil => intro _ k v v' h; cases h
  | cons p rest ih =>
    intro hnd k v v' h1 h2
    have hnd0 : p.1 ∉ rest.map Prod.fst ∧ (rest.map Prod.fst).Nodup := by
      rw [List.map_cons, List.nodup_cons] at hnd
      exact hnd
    rcases List.mem_cons.mp h1 with e1 | h1' <;> rcases List.mem_cons.mp h2 with e2 | h2'
    · exact ((Prod.mk.injEq _ _ _ _).mp (e1.trans e2.symm)).2
    · exfalso
      apply hnd0.1
      have hm : k ∈ rest.map Prod.fst := List.mem_map_of_mem Prod.fst h2'
      rw [← e1]
      exact hm
    · exfalso
      apply hnd0.1
      have hm : k ∈ rest.map Prod.fst := List.mem_map_of_mem Prod.fst h1'
      rw [← e2]
      exact hm
    · exact ih hnd0.2 k v v' h1' h2'

theorem mapGet_eq_some_mem (m : List (ℕ × α)) (k : ℕ) (v : α)
    (h : mapGet m k = some v) : (k, v) ∈ m := by
  unfold mapGet at h
  rcases hf : m.find? (fun p => p.1 == k) with _ | p
  · rw [hf] at h; cases h
  · rw [hf] at h
    obtain ⟨p1, p2⟩ := p
    have hk : p1 = k := by simpa using List.find?_some hf
    have hv : p2 = v := Option.some.inj h
    have hmem := List.mem_of_find?_eq_some hf
    rw [← hk, ← hv]
    exact hmem

/-! ### One reconcile cycle -/

theorem reconcile_components (s : SessionState) (dets : List FaceResult) (ct : ℤ) :
    (reconcile s dets ct).state.trackedFaces =
      carryForward s.trackedFaces ct
        (createNewTracks (matchTracks s.trackedFaces dets).2 ct dets 0 s.nextFaceId
          (applyMatches (matchTracks s.trackedFaces dets).1 ct) []).2.1 ∧
    (reconcile s dets ct).state.nextFaceId =
      (createNewTracks (matchTracks s.trackedFaces dets).2 ct dets 0 s.nextFaceId
        (applyMatches (matchTracks s.trackedFaces dets).1 ct) []).1 ∧
    (reconcile s dets ct).matchedPairs = (matchTracks s.trackedFaces dets).1 ∧
    (reconcile s dets ct).newTrackStamps =
      (createNewTracks (matchTracks s.trackedFaces dets).2 ct dets 0 s.nextFaceId
        (applyMatches (matchTracks s.trackedFaces dets).1 ct) []).2.2 ∧
    (reconcile s dets ct).faces = dets.enum.map (fun p =>
      match mapGet ((matchTracks s.trackedFaces dets).1.map
          (fun q => (q.detectionIndex, q.trackId)) ++
        (createNewTracks (matchTracks s.trackedFaces dets).2 ct dets 0 s.nextFaceId
          (applyMatches (matchTracks s.trackedFaces dets).1 ct) []).2.2) p.1 with
      | some id => { p.2 with persistentId := some id }
      | none => p.2) :=
  ⟨rfl, rfl, rfl, rfl, rfl⟩

theorem reconcile_spec (s : SessionState) (dets : List FaceResult) (ct : ℤ)
    (hs : GoodState s) :
    GoodState (reconcile s dets ct).state ∧
    s.nextFaceId ≤ (reconcile s dets ct).state.nextFaceId ∧
    ((reconcile s dets ct).matchedPairs.map (fun p => p.trackId)).Sublist
      (s.trackedFaces.map Prod.fst) ∧
    List.Chain' (· < ·) ((reconcile s dets ct).newTrackStamps.map Prod.snd) ∧
    (∀ q ∈ (reconcile s dets ct).newTrackStamps,
      s.nextFaceId ≤ q.2 ∧ q.2 < (reconcile s dets ct).state.nextFaceId) ∧
    (∀ p ∈ (reconcile s dets ct).matchedPairs,
      p.trackId ∈ (reconcile s dets ct).state.trackedFaces.map Prod.fst) ∧
    (∀ f ∈ (reconcile s dets ct).faces, ∀ pid, f.persistentId = some pid →
      (∃ g ∈ dets, g.persistentId = some pid) ∨
      pid ∈ s.trackedFaces.map Prod.fst ∨
      (s.nextFaceId ≤ pid ∧ pid < (reconcile s dets ct).state.nextFaceId)) ∧
    (∀ k td, (k, td) ∈ s.trackedFaces →
      k ∉ (reconcile s dets ct).matchedPairs.map (fun p => p.trackId) →
      (MAX_INACTIVITY_MS < ct - td.lastSeen →
        k ∉ (reconcile s dets ct).state.trackedFaces.map Prod.fst) ∧
      (ct - td.lastSeen ≤ MAX_INACTIVITY_MS →
        mapGet (reconcile s dets ct).state.trackedFaces k = some td)) := by
  obtain ⟨hnd, hbound, hone⟩ := hs
  obtain ⟨e1, e2, e3, e5, e6⟩ := reconcile_components s dets ct
  have hmT : matchTracks s.trackedFaces dets = matchScan dets ([], []) s.trackedFaces :=
    foldl_eq_matchScan dets s.trackedFaces ([], [])
  obtain ⟨_, _, ext, hext, hsub, _⟩ :=
    matchScan_spec dets s.trackedFaces ([], []) rfl List.nodup_nil
  have hpairs : (matchTracks s.trackedFaces dets).1 = ext := by
    rw [hmT]; simpa using hext
  have hpairs_sub : ((matchTracks s.trackedFaces dets).1.map
      (fun p => p.trackId)).Sublist (s.trackedFaces.map Prod.fst) := by
    rw [hpairs]; exact hsub
  have hpairs_nd : ((matchTracks s.trackedFaces dets).1.map
      (fun p => p.trackId)).Nodup := List.Nodup.sublist hpairs_sub hnd
  have ht1keys : (applyMatches (matchTracks s.trackedFaces dets).1 ct).map Prod.fst =
      (matchTracks s.trackedFaces dets).1.map (fun p => p.trackId) :=
    applyMatches_keys _ ct hpairs_nd
  have hmatched_lt : ∀ k ∈ (matchTracks s.trackedFaces dets).1.map (fun p => p.trackId),
      1 ≤ k ∧ k < s.nextFaceId := fun k hk => hbound k (hpairs_sub.subset hk)
  have hcpre : ∀ k ∈ (applyMatches (matchTracks s.trackedFaces dets).1 ct).map Prod.fst,
      k < s.nextFaceId := by
    intro k hk
    rw [ht1keys] at hk
    exact (hmatched_lt k hk).2
  obtain ⟨ha, ns, hst, hch, hbnd, hkeys2, _⟩ :=
    createNewTracks_spec (matchTracks s.trackedFaces dets).2 ct dets 0 s.nextFaceId
      (applyMatches (matchTracks s.trackedFaces dets).1 ct) [] hcpre
  rw [List.nil_append] at hst
  have hns_nd : (ns.map Prod.snd).Nodup :=
    List.Pairwise.imp (fun h => Nat.ne_of_lt h) (List.chain'_iff_pairwise.mp hch)
  have ht2keys_nd : ((createNewTracks (matchTracks s.trackedFaces dets).2 ct dets 0
      s.nextFaceId (applyMatches (matchTracks s.trackedFaces dets).1 ct) []).2.1.map
      Prod.fst).Nodup := by
    rw [hkeys2, List.nodup_append]
    refine ⟨by rw [ht1keys]; exact hpairs_nd, hns_nd, ?_⟩
    intro a ha1 ha2
    rcases List.mem_map.mp ha2 with ⟨q, hq, rfl⟩
    exact absurd (hbnd q hq).1 (not_le.mpr (hcpre _ ha1))
  have hnot_t2 : ∀ k, k ∉ (matchTracks s.trackedFaces dets).1.map (fun p => p.trackId) →
      k < s.nextFaceId →
      k ∉ (createNewTracks (matchTracks s.trackedFaces dets).2 ct dets 0 s.nextFaceId
        (applyMatches (matchTracks s.trackedFaces dets).1 ct) []).2.1.map Prod.fst := by
    intro k hkm hkl hk2
    rw [hkeys2] at hk2
    rcases List.mem_append.mp hk2 with hm | hm
    · rw [ht1keys] at hm
      exact hkm hm
    · rcases List.mem_map.mp hm with ⟨q, hq, rfl⟩
      exact absurd (hbnd q hq).1 (not_le.mpr hkl)
  refine ⟨⟨?_, ?_, ?_⟩, ?_, ?_, ?_, ?_, ?_, ?_, ?_⟩
  · rw [e1]
    exact carryForward_keys_nodup ct s.trackedFaces _ ht2keys_nd
  · rw [e1, e2]
    intro k hk
    rcases carryForward_keys_subset ct s.trackedFaces _ k hk with hm | hm
    · rw [hkeys2] at hm
      rcases List.mem_append.mp hm with hm' | hm'
      · rw [ht1keys] at hm'
        obtain ⟨hk1, hk2⟩ := hmatched_lt k hm'
        exact ⟨hk1, lt_of_lt_of_le hk2 ha⟩
      · rcases List.mem_map.mp hm' with ⟨q, hq, rfl⟩
        exact ⟨le_trans hone (hbnd q hq).1, (hbnd q hq).2⟩
    · obtain ⟨hk1, hk2⟩ := hbound k hm
      exact ⟨hk1, lt_of_lt_of_le hk2 ha⟩
  · rw [e2]
    exact le_trans hone ha
  · rw [e2]
    exact ha
  · rw [e3]
    exact hpairs_sub
  · rw [e5, hst]
    exact hch
  · rw [e5, e2, hst]
    exact hbnd
  · rw [e3, e1]
    intro p hp
    have h1 : p.trackId ∈ (applyMatches (matchTracks s.trackedFaces dets).1 ct).map
        Prod.fst := by
      rw [ht1keys]
      exact List.mem_map_of_mem _ hp
    have h2 : p.trackId ∈ (createNewTracks (matchTracks s.trackedFaces dets).2 ct dets 0
        s.nextFaceId (applyMatches (matchTracks s.trackedFaces dets).1 ct) []).2.1.map
        Prod.fst := by
      rw [hkeys2]
      exact List.mem_append_left _ h1
    exact carryForward_keys_mono ct s.trackedFaces _ p.trackId h2
  · rw [e6, e2]
    intro f hf pid hpid
    rcases List.mem_map.mp hf with ⟨p, hpmem, rfl⟩
    rcases hmg : mapGet ((matchTracks s.trackedFaces dets).1.map
        (fun q => (q.detectionIndex, q.trackId)) ++
      (createNewTracks (matchTracks s.trackedFaces dets).2 ct dets 0 s.nextFaceId
        (applyMatches (matchTracks s.trackedFaces dets).1 ct) []).2.2) p.1
      with _ | id
    · rw [hmg] at hpid
      simp only at hpid
      exact Or.inl ⟨p.2, List.getElem?_mem (List.mem_enum_iff_getElem?.mp hpmem), hpid⟩
    · rw [hmg] at hpid
      simp only at hpid
      have hid : id = pid := Option.some.inj hpid
      subst hid
      have hmem := mapGet_eq_some_mem _ _ _ hmg
      rcases List.mem_append.mp hmem with hm | hm
      · rcases List.mem_map.mp hm with ⟨q, hq, he⟩
        have : id = q.trackId := ((Prod.mk.injEq _ _ _ _).mp he).2.symm
        right; left
        rw [this]
        exact hpairs_sub.subset (List.mem_map_of_mem _ hq)
      · rw [hst] at hm
        exact Or.inr (Or.inr (hbnd (p.1, id) hm))
  · rw [e3, e1]
    intro k td hmem hnm
    have hkold : k ∈ s.trackedFaces.map Prod.fst := List.mem_map_of_mem Prod.fst hmem
    have hklt : k < s.nextFaceId := (hbound k hkold).2
    have hk2 := hnot_t2 k hnm hklt
    constructor
    · intro htime
      refine carryForward_not_mem ct s.trackedFaces _ k hk2 ?_
      intro td' htd'
      rw [mem_assoc_unique s.trackedFaces hnd k td' td htd' hmem]
      exact htime
    · intro htime
      exact carryForward_carries ct s.trackedFaces _ k td hnd hmem hk2 htime

/-! ### Session traces -/

theorem initial_GoodState : GoodState initialSessionState := by
  refine ⟨List.nodup_nil, ?_, le_refl 1⟩
  intro k hk
  simp [initialSessionState] at hk

theorem runSession_GoodState :
    ∀ (cycles : List (List FaceResult × ℤ)) (s : SessionState), GoodState s →
      GoodState (runSession s cycles) ∧
      s.nextFaceId ≤ (runSession s cycles).nextFaceId := by
  intro cycles
  induction cycles with
  | nil => intro s hs; exact ⟨hs, le_refl _⟩
  | cons c rest ih =>
    intro s hs
    obtain ⟨hg, hmono, _, _, _, _, _, _⟩ := reconcile_spec s c.1 c.2 hs
    obtain ⟨hg', hmono'⟩ := ih _ hg
    rw [runSession]
    exact ⟨hg', le_trans hmono hmono'⟩

theorem createdIdsTrace_spec :
    ∀ (cycles : List (List FaceResult × ℤ)) (s : SessionState), GoodState s →
      (∀ id ∈ createdIdsTrace s cycles, s.nextFaceId ≤ id) ∧
      List.Chain' (· < ·) (createdIdsTrace s cycles) := by
  intro cycles
  induction cycles with
  | nil =>
    intro s _
    exact ⟨by simp [createdIdsTrace], by simp [createdIdsTrace]⟩
  | cons c rest ih =>
    intro s hs
    obtain ⟨hg, hmono, _, hch, hbnd, _, _, _⟩ := reconcile_spec s c.1 c.2 hs
    obtain ⟨hbnd', hch'⟩ := ih _ hg
    rw [createdIdsTrace]
    constructor
    · intro id hid
      rcases List.mem_append.mp hid with hm | hm
      · rcases List.mem_map.mp hm with ⟨q, hq, rfl⟩
        exact (hbnd q hq).1
      · exact le_trans hmono (hbnd' id hm)
    · rw [List.chain'_append]
      refine ⟨hch, hch', ?_⟩
      intro x hx y hy
      have hxm : x ∈ (reconcile s c.1 c.2).newTrackStamps.map Prod.snd :=
        List.mem_of_mem_getLast? hx
      have hym : y ∈ createdIdsTrace (reconcile s c.1 c.2).state rest :=
        List.mem_of_mem_head? hy
      rcases List.mem_map.mp hxm with ⟨q, hq, rfl⟩
      exact lt_of_lt_of_le (hbnd q hq).2 (hbnd' y hym)

/-- Claim C5: within one capture session every newly created trackId is
strictly greater than every trackId created before it, so no two tracks
created in a session share an id, and a track matched in a cycle keeps
its trackId (it is a key of the new Track Table); this holds along every
sequence of reconcile calls from the session-start state. -/
theorem session_ids_monotonic_unique (cycles : List (List FaceResult × ℤ)) :
    List.Chain' (· < ·) (createdIdsTrace initialSessionState cycles) ∧
    (createdIdsTrace initialSessionState cycles).Nodup ∧
    ∀ (s : SessionState) (dets : List FaceResult) (ct : ℤ), GoodState s →
      ∀ p ∈ (reconcile s dets ct).matchedPairs,
        p.trackId ∈ (reconcile s dets ct).state.trackedFaces.map Prod.fst := by
  obtain ⟨_, hch⟩ := createdIdsTrace_spec cycles initialSessionState initial_GoodState
  refine ⟨hch, ?_, ?_⟩
  · exact List.Pairwise.imp (fun h => Nat.ne_of_lt h) (List.chain'_iff_pairwise.mp hch)
  · intro s dets ct hs p hp
    obtain ⟨_, _, _, _, _, hmm, _, _⟩ := reconcile_spec s dets ct hs
    exact hmm p hp

theorem sample_GoodState : GoodState ⟨[(1, sampleTrack ⟨0, 0, 10, 10⟩ 0)], 2⟩ := by
  refine ⟨by simp, ?_, by norm_num⟩
  intro k hk
  simp at hk
  subst hk
  exact ⟨le_refl 1, by norm_num⟩

/-- Witness for C5: a one-cycle session creating one track, and a
concrete matched pair whose id stays a key of the new table. -/
theorem session_ids_monotonic_unique_witness :
    List.Chain' (· < ·) (createdIdsTrace initialSessionState
      [([sampleFace ⟨0, 0, 10, 10⟩ "w"], 5)]) ∧
    (createdIdsTrace initialSessionState [([sampleFace ⟨0, 0, 10, 10⟩ "w"], 5)]).Nodup ∧
    1 ∈ (reconcile ⟨[(1, sampleTrack ⟨0, 0, 10, 10⟩ 0)], 2⟩
      [sampleFace ⟨0, 0, 10, 10⟩ "w"] 5).state.trackedFaces.map Prod.fst := by
  obtain ⟨h1, h2, h3⟩ :=
    session_ids_monotonic_unique [([sampleFace ⟨0, 0, 10, 10⟩ "w"], 5)]
  refine ⟨h1, h2, ?_⟩
  have hp : MatchedPair.mk 1 (sampleFace ⟨0, 0, 10, 10⟩ "w") 0 ∈
      (reconcile ⟨[(1, sampleTrack ⟨0, 0, 10, 10⟩ 0)], 2⟩
        [sampleFace ⟨0, 0, 10, 10⟩ "w"] 5).matchedPairs := by
    norm_num [reconcile, matchTracks, findBestMatch, calculateIoU, IOU_THRESHOLD,
      sampleTrack, sampleFace, List.enum, List.enumFrom]
  exact h3 _ _ _ sample_GoodState _ hp

/-- Claim C4: a previous-table track that receives no match in the
current cycle is absent from the new Track Table when now - lastSeen
strictly exceeds 20000 ms, and its identifier is never created again by
any later cycle; when now - lastSeen is at most 20000 ms it is present
in the new Track Table unmodified (same region, lastSeen and label). -/
theorem track_expiry_and_carry (s : SessionState) (dets : List FaceResult) (ct : ℤ)
    (hs : GoodState s) :
    ∀ k td, (k, td) ∈ s.trackedFaces →
      k ∉ (reconcile s dets ct).matchedPairs.map (fun p => p.trackId) →
      (MAX_INACTIVITY_MS < ct - td.lastSeen →
        k ∉ (reconcile s dets ct).state.trackedFaces.map Prod.fst ∧
        ∀ cycles, k ∉ createdIdsTrace (reconcile s dets ct).state cycles) ∧
      (ct - td.lastSeen ≤ MAX_INACTIVITY_MS →
        mapGet (reconcile s dets ct).state.trackedFaces k = some td) := by
  intro k td hmem hnm
  obtain ⟨hg, hmono, _, _, _, _, _, hexp⟩ := reconcile_spec s dets ct hs
  obtain ⟨h1, h2⟩ := hexp k td hmem hnm
  refine ⟨fun ht => ⟨h1 ht, ?_⟩, h2⟩
  intro cycles hid
  obtain ⟨hbnd, _⟩ := createdIdsTrace_spec cycles (reconcile s dets ct).state hg
  have hklt : k < s.nextFaceId := (hs.2.1 k (List.mem_map_of_mem Prod.fst hmem)).2
  exact absurd (hbnd k hid) (not_le.mpr (lt_of_lt_of_le hklt hmono))

/-- Witness for C4: an unmatched track aged 20001 ms is dropped; the
same track aged 19900 ms is carried forward unmodified. -/
theorem track_expiry_and_carry_witness :
    1 ∉ (reconcile ⟨[(1, sampleTrack ⟨0, 0, 10, 10⟩ 0)], 2⟩
      [] 20001).state.trackedFaces.map Prod.fst ∧
    mapGet (reconcile ⟨[(1, sampleTrack ⟨0, 0, 10, 10⟩ 0)], 2⟩
      [] 19900).state.trackedFaces 1 = some (sampleTrack ⟨0, 0, 10, 10⟩ 0) := by
  constructor
  · have h := track_expiry_and_carry ⟨[(1, sampleTrack ⟨0, 0, 10, 10⟩ 0)], 2⟩ [] 20001
      sample_GoodState 1 (sampleTrack ⟨0, 0, 10, 10⟩ 0) (List.mem_singleton_self _)
      (by decide)
    exact (h.1 (by decide)).1
  · have h := track_expiry_and_carry ⟨[(1, sampleTrack ⟨0, 0, 10, 10⟩ 0)], 2⟩ [] 19900
      sample_GoodState 1 (sampleTrack ⟨0, 0, 10, 10⟩ 0) (List.mem_singleton_self _)
      (by decide)
    exact h.2 (by decide)

theorem facesTrace_positive_aux :
    ∀ (cycles : List (List FaceResult × ℤ)) (s : SessionState), GoodState s →
      (∀ c ∈ cycles, ∀ g ∈ c.1, g.persistentId = none) →
      ∀ fs ∈ facesTrace s cycles, ∀ f ∈ fs, ∀ pid,
        f.persistentId = some pid → 1 ≤ pid := by
  intro cycles
  induction cycles with
  | nil =>
    intro s _ _ fs hfs
    simp [facesTrace] at hfs
  | cons c rest ih =>
    intro s hs hraw fs hfs f hf pid hpid
    rw [facesTrace] at hfs
    rcases List.mem_cons.mp hfs with rfl | hfs'
    · obtain ⟨_, _, _, _, _, _, hfaces, _⟩ := reconcile_spec s c.1 c.2 hs
      rcases hfaces f hf pid hpid with ⟨g, hg, hgp⟩ | hm | ⟨hge, _⟩
      · rw [hraw c (List.mem_cons_self _ _) g hg] at hgp
        cases hgp
      · exact (hs.2.1 pid hm).1
      · exact le_trans hs.2.2 hge
    · obtain ⟨hg, _, _, _, _, _, _, _⟩ := reconcile_spec s c.1 c.2 hs
      exact ih _ hg (fun c' hc' => hraw c' (List.mem_cons_of_mem _ hc')) fs hfs' f hf
        pid hpid

/-- Claim C10: in a session whose detector inputs carry no persistentId
(the raw detections), every trackId the reconciler ever stamps onto a
detection is at least 1 — the counter starts at 1 and only increments —
so the downstream truthiness test `if (face.persistentId)` (falsy only
for `undefined` and `0`) never treats an annotated detection as
unannotated. -/
theorem reconciler_stamps_positive (cycles : List (List FaceResult × ℤ))
    (hraw : ∀ c ∈ cycles, ∀ g ∈ c.1, g.persistentId = none) :
    ∀ fs ∈ facesTrace initialSessionState cycles, ∀ f ∈ fs, ∀ pid,
      f.persistentId = some pid → 1 ≤ pid :=
  facesTrace_positive_aux cycles initialSessionState initial_GoodState hraw

/-- Witness for C10 at a one-cycle session: the single detection is
stamped with trackId 1 and 1 is positive. -/
theorem reconciler_stamps_positive_witness :
    ({ sampleFace ⟨0, 0, 10, 10⟩ "w" with persistentId := some 1 } : FaceResult) ∈
      (reconcile initialSessionState [sampleFace ⟨0, 0, 10, 10⟩ "w"] 5).faces ∧
    (1 : ℕ) ≤ 1 := by
  have hmem : ({ sampleFace ⟨0, 0, 10, 10⟩ "w" with persistentId := some 1 } :
      FaceResult) ∈
      (reconcile initialSessionState [sampleFace ⟨0, 0, 10, 10⟩ "w"] 5).faces := by
    norm_num [reconcile, matchTracks, findBestMatch, applyMatches, createNewTracks,
      carryForward, initialSessionState, mapGet, mapSet, mapHas, sampleFace,
      List.enum, List.enumFrom]
  have hraw : ∀ c ∈ [([sampleFace ⟨0, 0, 10, 10⟩ "w"], (5 : ℤ))], ∀ g ∈ c.1,
      g.persistentId = none := by
    intro c hc g hg
    obtain rfl := List.mem_singleton.mp hc
    obtain rfl := List.mem_singleton.mp hg
    rfl
  refine ⟨hmem, ?_⟩
  exact reconciler_stamps_positive _ hraw
    (reconcile initialSessionState [sampleFace ⟨0, 0, 10, 10⟩ "w"] 5).faces
    (by simp [facesTrace])
    ({ sampleFace ⟨0, 0, 10, 10⟩ "w" with persistentId := some 1 }) hmem 1 rfl

/-! ### Attendance debounce -/

theorem attendanceStep_cons (students : List (ℕ × StudentInfo)) (g : FaceResult)
    (rest : List FaceResult) (ct : ℤ) (st : AttendanceState) :
    attendanceStep students (g :: rest) ct st =
      attendanceStep students rest ct (logAttendanceForFace students ct st g) := rfl

theorem drop_append_cons (l : List α) (r : α) (ext : List α) :
    ((l ++ [r]) ++ ext).drop l.length = r :: ext := by
  rw [List.append_assoc, List.drop_left]
  rfl

/-- Every execution of the attendance body either leaves the state
unchanged or emits one record for the face's (nonzero) id — which then
is enrolled and passes the `!lastLog || elapsed` test — updating the
registry entry to the current time. -/
theorem logAttendanceForFace_cases (students : List (ℕ × StudentInfo)) (ct : ℤ)
    (st : AttendanceState) (face : FaceResult) :
    logAttendanceForFace students ct st face = st ∨
    ∃ pid, face.persistentId = some pid ∧ pid ≠ 0 ∧
      (mapGet students pid).isSome = true ∧
      (mapGet st.lastAttendanceLog pid = none ∨
        ∃ t, mapGet st.lastAttendanceLog pid = some t ∧
          (t = 0 ∨ ATTENDANCE_LOG_INTERVAL_MS < ct - t)) ∧
      logAttendanceForFace students ct st face =
        ⟨mapSet st.lastAttendanceLog pid ct,
         st.attendance ++ [⟨pid, ct, face.emotion⟩]⟩ := by
  unfold logAttendanceForFace
  rcases hp : face.persistentId with _ | pid
  · exact Or.inl rfl
  · dsimp only
    by_cases h0 : pid = 0
    · rw [if_pos h0]
      exact Or.inl rfl
    · rw [if_neg h0]
      rcases hstu : mapGet students pid with _ | info
      · exact Or.inl rfl
      · dsimp only
        rcases hll : mapGet st.lastAttendanceLog pid with _ | t
        · exact Or.inr ⟨pid, rfl, h0, by rw [hstu]; rfl, Or.inl hll, rfl⟩
        · dsimp only
          by_cases hcond : t = 0 ∨ ATTENDANCE_LOG_INTERVAL_MS < ct - t
          · rw [if_pos (by simpa [gt_iff_lt] using hcond)]
            exact Or.inr ⟨pid, rfl, h0, by rw [hstu]; rfl, Or.inr ⟨t, hll, hcond⟩, rfl⟩
          · rw [if_neg (by simpa [gt_iff_lt] using hcond)]
            exact Or.inl rfl

theorem attendanceStep_prefix (students : List (ℕ × StudentInfo)) (ct : ℤ) :
    ∀ (faces : List FaceResult) (st : AttendanceState),
      ∃ ext, (attendanceStep students faces ct st).attendance = st.attendance ++ ext := by
  intro faces
  induction faces with
  | nil => intro st; exact ⟨[], by simp [attendanceStep]⟩
  | cons g rest ih =>
    intro st
    rw [attendanceStep_cons]
    rcases logAttendanceForFace_cases students ct st g with he | ⟨pidg, _, _, _, _, he⟩
    · rw [he]
      exact ih st
    · rw [he]
      obtain ⟨ext, hext⟩ := ih ⟨mapSet st.lastAttendanceLog pidg ct,
        st.attendance ++ [⟨pidg, ct, g.emotion⟩]⟩
      refine ⟨⟨pidg, ct, g.emotion⟩ :: ext, ?_⟩
      rw [hext]
      simp

theorem attendanceStep_untouched (students : List (ℕ × StudentInfo)) (ct : ℤ) :
    ∀ (faces : List FaceResult) (st : AttendanceState) (pid : ℕ),
      (∀ f ∈ faces, f.persistentId ≠ some pid) →
      mapGet (attendanceStep students faces ct st).lastAttendanceLog pid =
        mapGet st.lastAttendanceLog pid ∧
      ∀ r ∈ (attendanceStep students faces ct st).attendance.drop
        st.attendance.length, r.persistentId ≠ pid := by
  intro faces
  induction faces with
  | nil =>
    intro st pid _
    refine ⟨rfl, ?_⟩
    intro r hr
    simp [attendanceStep] at hr
  | cons g rest ih =>
    intro st pid hall
    rw [attendanceStep_cons]
    rcases logAttendanceForFace_cases students ct st g with he | ⟨pidg, hg, _, _, _, he⟩
    · rw [he]
      exact ih st pid (fun f hf => hall f (List.mem_cons_of_mem _ hf))
    · have hne : pidg ≠ pid := fun e => hall g (List.mem_cons_self _ _) (by rw [hg, e])
      rw [he]
      obtain ⟨h1, h2⟩ := ih ⟨mapSet st.lastAttendanceLog pidg ct,
        st.attendance ++ [⟨pidg, ct, g.emotion⟩]⟩ pid
        (fun f hf => hall f (List.mem_cons_of_mem _ hf))
      obtain ⟨ext, hext⟩ := attendanceStep_prefix students ct rest
        ⟨mapSet st.lastAttendanceLog pidg ct,
         st.attendance ++ [⟨pidg, ct, g.emotion⟩]⟩
      constructor
      · rw [h1]
        exact mapGet_mapSet_of_ne _ _ _ _ (fun e => hne e.symm)
      · intro r hr
        rw [hext] at hr
        have hr' : r ∈ (⟨pidg, ct, g.emotion⟩ : AttendanceRecord) :: ext := by
          rw [← drop_append_cons st.attendance (⟨pidg, ct, g.emotion⟩ :
            AttendanceRecord) ext]
          exact hr
        rcases List.mem_cons.mp hr' with rfl | hm
        · exact hne
        · refine h2 r ?_
          rw [hext, List.drop_left]
          exact hm

theorem attendance_debounce_aux (students : List (ℕ × StudentInfo)) (ct : ℤ) :
    ∀ (faces : List FaceResult) (st : AttendanceState),
      (faces.filterMap (fun f => f.persistentId)).Nodup →
      ∀ f ∈ faces, ∀ pid, f.persistentId = some pid → pid ≠ 0 →
      mapGet st.lastAttendanceLog pid ≠ some 0 →
      ((∃ r ∈ (attendanceStep students faces ct st).attendance.drop
          st.attendance.length, r.persistentId = pid) ↔
        ((mapGet students pid).isSome = true ∧
          (mapGet st.lastAttendanceLog pid = none ∨
            ∃ t, mapGet st.lastAttendanceLog pid = some t ∧
              ATTENDANCE_LOG_INTERVAL_MS < ct - t))) ∧
      (((mapGet students pid).isSome = true ∧
          (mapGet st.lastAttendanceLog pid = none ∨
            ∃ t, mapGet st.lastAttendanceLog pid = some t ∧
              ATTENDANCE_LOG_INTERVAL_MS < ct - t)) →
        mapGet (attendanceStep students faces ct st).lastAttendanceLog pid = some ct) := by
  intro faces
  induction faces with
  | nil =>
    intro st _ f hf
    cases hf
  | cons g rest ih =>
    intro st hnd f hf pid hpid hpos hreg
    rw [attendanceStep_cons]
    rcases List.mem_cons.mp hf with rfl | hfr
    · -- the face under scrutiny is the head
      have hnot : ∀ f' ∈ rest, f'.persistentId ≠ some pid := by
        intro f' hf' he
        have hmem : pid ∈ rest.filterMap (fun f => f.persistentId) :=
          List.mem_filterMap.mpr ⟨f', hf', he⟩
        have hnd2 : (pid :: rest.filterMap (fun f => f.persistentId)).Nodup := by
          simpa [List.filterMap_cons, hpid] using hnd
        exact (List.nodup_cons.mp hnd2).1 hmem
      have hlog := logAttendanceForFace_cases students ct st f
      rcases hlog with he | ⟨pid', hpid', _, hstu', hrule', he⟩
      · -- no emission for the head face
        rw [he]
        obtain ⟨hu1, hu2⟩ := attendanceStep_untouched students ct rest st pid hnot
        have hnoemit : ¬ ((mapGet students pid).isSome = true ∧
            (mapGet st.lastAttendanceLog pid = none ∨
              ∃ t, mapGet st.lastAttendanceLog pid = some t ∧
                ATTENDANCE_LOG_INTERVAL_MS < ct - t)) := by
          -- were the rule satisfied, the head would have emitted
          intro ⟨hsome, hor⟩
          rcases Option.isSome_iff_exists.mp hsome with ⟨info, hinfo⟩
          have : logAttendanceForFace students ct st f =
              (⟨mapSet st.lastAttendanceLog pid ct,
                st.attendance ++ [⟨pid, ct, f.emotion⟩]⟩ : AttendanceState) := by
            unfold logAttendanceForFace
            rw [hpid]
            dsimp only
            rw [if_neg hpos, hinfo]
            dsimp only
            rcases hor with hnone | ⟨t, hsomet, hel⟩
            · rw [hnone]
            · rw [hsomet]
              dsimp only
              rw [if_pos (by simpa [gt_iff_lt] using Or.inr hel)]
          rw [he] at this
          have habs : st.attendance = st.attendance ++ [(⟨pid, ct, f.emotion⟩ :
              AttendanceRecord)] := congrArg AttendanceState.attendance this
          have hlen := congrArg List.length habs
          simp at hlen
        refine ⟨⟨?_, fun h => absurd h hnoemit⟩, fun h => absurd h hnoemit⟩
        rintro ⟨r, hr, hrp⟩
        exact absurd hrp (hu2 r hr)
      · -- the head emitted: the stamped id is the face's own pid
        have hpe : pid' = pid := by
          rw [hpid] at hpid'
          exact (Option.some.inj hpid').symm
        subst hpe
        rw [he]
        obtain ⟨hu1, hu2⟩ := attendanceStep_untouched students ct rest
          ⟨mapSet st.lastAttendanceLog pid' ct,
           st.attendance ++ [⟨pid', ct, f.emotion⟩]⟩ pid' hnot
        obtain ⟨ext, hext⟩ := attendanceStep_prefix students ct rest
          ⟨mapSet st.lastAttendanceLog pid' ct,
           st.attendance ++ [⟨pid', ct, f.emotion⟩]⟩
        have hrule : mapGet st.lastAttendanceLog pid' = none ∨
            ∃ t, mapGet st.lastAttendanceLog pid' = some t ∧
              ATTENDANCE_LOG_INTERVAL_MS < ct - t := by
          rcases hrule' with hnone | ⟨t, hsomet, hz | hel⟩
          · exact Or.inl hnone
          · exact absurd (hz ▸ hsomet) hreg
          · exact Or.inr ⟨t, hsomet, hel⟩
        constructor
        · constructor
          · intro _
            exact ⟨hstu', hrule⟩
          · intro _
            refine ⟨⟨pid', ct, f.emotion⟩, ?_, rfl⟩
            rw [hext]
            have hin : (⟨pid', ct, f.emotion⟩ : AttendanceRecord) ∈
                ((st.attendance ++ [(⟨pid', ct, f.emotion⟩ : AttendanceRecord)]) ++
                  ext).drop st.attendance.length := by
              rw [drop_append_cons]
              exact List.mem_cons_self _ _
            exact hin
        · intro _
          rw [hu1]
          exact mapGet_mapSet_self _ _ _
    · -- the face under scrutiny is in the tail
      have hpidmem : pid ∈ rest.filterMap (fun f => f.persistentId) :=
        List.mem_filterMap.mpr ⟨f, hfr, hpid⟩
      have hnd' : (rest.filterMap (fun f => f.persistentId)).Nodup := by
        rcases hgp2 : g.persistentId with _ | pg
        · simpa [List.filterMap_cons, hgp2] using hnd
        · have hnd2 : (pg :: rest.filterMap (fun f => f.persistentId)).Nodup := by
            simpa [List.filterMap_cons, hgp2] using hnd
          exact (List.nodup_cons.mp hnd2).2
      rcases logAttendanceForFace_cases students ct st g with he | ⟨pidg, hgp, _, _, _, he⟩
      · rw [he]
        exact ih st hnd' f hfr pid hpid hpos hreg
      · have hpidne : pidg ≠ pid := by
          intro e
          have hnd2 : (pidg :: rest.filterMap (fun f => f.persistentId)).Nodup := by
            simpa [List.filterMap_cons, hgp] using hnd
          exact (List.nodup_cons.mp hnd2).1 (e ▸ hpidmem)
        rw [he]
        have heqreg : mapGet (mapSet st.lastAttendanceLog pidg ct) pid =
            mapGet st.lastAttendanceLog pid :=
          mapGet_mapSet_of_ne _ _ _ _ (fun e => hpidne e.symm)
        have hreg' : mapGet (mapSet st.lastAttendanceLog pidg ct) pid ≠ some 0 := by
          rw [heqreg]; exact hreg
        obtain ⟨hiff, himp⟩ := ih ⟨mapSet st.lastAttendanceLog pidg ct,
          st.attendance ++ [⟨pidg, ct, g.emotion⟩]⟩ hnd' f hfr pid hpid hpos hreg'
        rw [heqreg] at hiff himp
        obtain ⟨ext, hext⟩ := attendanceStep_prefix students ct rest
          ⟨mapSet st.lastAttendanceLog pidg ct,
           st.attendance ++ [⟨pidg, ct, g.emotion⟩]⟩
        have hdropo : (attendanceStep students rest ct
            ⟨mapSet st.lastAttendanceLog pidg ct,
             st.attendance ++ [⟨pidg, ct, g.emotion⟩]⟩).attendance.drop
            st.attendance.length = (⟨pidg, ct, g.emotion⟩ : AttendanceRecord) ::
            (attendanceStep students rest ct
              ⟨mapSet st.lastAttendanceLog pidg ct,
               st.attendance ++ [⟨pidg, ct, g.emotion⟩]⟩).attendance.drop
              (st.attendance ++ [(⟨pidg, ct, g.emotion⟩ : AttendanceRecord)]).length := by
          rw [hext]
          show ((st.attendance ++ [(⟨pidg, ct, g.emotion⟩ : AttendanceRecord)]) ++
              ext).drop st.attendance.length =
            (⟨pidg, ct, g.emotion⟩ : AttendanceRecord) ::
              ((st.attendance ++ [(⟨pidg, ct, g.emotion⟩ : AttendanceRecord)]) ++
                ext).drop (st.attendance ++
                  [(⟨pidg, ct, g.emotion⟩ : AttendanceRecord)]).length
          rw [drop_append_cons, List.drop_left]
        constructor
        · rw [hdropo]
          constructor
          · rintro ⟨r, hr, hrp⟩
            rcases List.mem_cons.mp hr with rfl | hr'
            · exact absurd hrp hpidne
            · exact hiff.mp ⟨r, hr', hrp⟩
          · intro hrhs
            obtain ⟨r, hr, hrp⟩ := hiff.mpr hrhs
            exact ⟨r, List.mem_cons_of_mem _ hr, hrp⟩
        · exact himp

/-- Claim C6: for a detection annotated with a (nonzero) trackId in a
cycle whose detections carry pairwise-distinct trackIds (as the
reconciler guarantees) and whose registry holds no zero timestamp (every
recorded timestamp is some cycle's `Date.now()`), an attendance event is
emitted for that trackId iff it resolves to an enrolled identity AND (no
event was recorded for it OR the elapsed time strictly exceeds 5
minutes); on emission the registry entry for the trackId is set to the
current timestamp.  The decision is independent per trackId within the
cycle. -/
theorem attendance_debounce (students : List (ℕ × StudentInfo))
    (faces : List FaceResult) (ct : ℤ) (st : AttendanceState)
    (hnd : (faces.filterMap (fun f => f.persistentId)).Nodup)
    (f : FaceResult) (hf : f ∈ faces) (pid : ℕ) (hpid : f.persistentId = some pid)
    (hpos : pid ≠ 0) (hreg : mapGet st.lastAttendanceLog pid ≠ some 0) :
    ((∃ r ∈ (attendanceStep students faces ct st).attendance.drop
        st.attendance.length, r.persistentId = pid) ↔
      ((mapGet students pid).isSome = true ∧
        (mapGet st.lastAttendanceLog pid = none ∨
          ∃ t, mapGet st.lastAttendanceLog pid = some t ∧
            ATTENDANCE_LOG_INTERVAL_MS < ct - t))) ∧
    (((mapGet students pid).isSome = true ∧
        (mapGet st.lastAttendanceLog pid = none ∨
          ∃ t, mapGet st.lastAttendanceLog pid = some t ∧
            ATTENDANCE_LOG_INTERVAL_MS < ct - t)) →
      mapGet (attendanceStep students faces ct st).lastAttendanceLog pid = some ct) :=
  attendance_debounce_aux students ct faces st hnd f hf pid hpid hpos hreg

/-- Witness for C6: one enrolled face, empty registry — the event is
emitted and the registry entry becomes the current time. -/
theorem attendance_debounce_witness :
    ((∃ r ∈ (attendanceStep [(1, ⟨"n", "r"⟩)]
        [{ sampleFace ⟨0, 0, 10, 10⟩ "w" with persistentId := some 1 }] 10
        ⟨[], []⟩).attendance.drop 0, r.persistentId = 1) ↔
      ((mapGet [(1, (⟨"n", "r"⟩ : StudentInfo))] 1).isSome = true ∧
        (mapGet ([] : List (ℕ × ℤ)) 1 = none ∨
          ∃ t, mapGet ([] : List (ℕ × ℤ)) 1 = some t ∧
            ATTENDANCE_LOG_INTERVAL_MS < 10 - t))) ∧
    (((mapGet [(1, (⟨"n", "r"⟩ : StudentInfo))] 1).isSome = true ∧
        (mapGet ([] : List (ℕ × ℤ)) 1 = none ∨
          ∃ t, mapGet ([] : List (ℕ × ℤ)) 1 = some t ∧
            ATTENDANCE_LOG_INTERVAL_MS < 10 - t)) →
      mapGet (attendanceStep [(1, ⟨"n", "r"⟩)]
        [{ sampleFace ⟨0, 0, 10, 10⟩ "w" with persistentId := some 1 }] 10
        ⟨[], []⟩).lastAttendanceLog 1 = some 10) :=
  attendance_debounce [(1, ⟨"n", "r"⟩)]
    [{ sampleFace ⟨0, 0, 10, 10⟩ "w" with persistentId := some 1 }] 10 ⟨[], []⟩
    (by simp [sampleFace]) _ (List.mem_singleton_self _) 1 rfl (by decide) (by decide)

end FaceReco
